import Mathlib

/-!
Verification of the sequential batch OCR job queue of `ocr_app.py`
(class `BatchOCRWindow` together with the callback plumbing of `OCRApp`).

The embedding below is a shallow, executable translation of the queue
control logic of the source file:

* a `FileInfo` record mirrors the per-file dictionaries kept in
  `BatchOCRWindow.file_list` (`path`, `name`, `status`, `progress`,
  `result`, `image_path`);
* the three status strings of the source (waiting, processing, done;
  written as Chinese literals in the code) become the inductive `Status`;
* Python aliasing (the task queue and the current-task slot hold
  references to the very dictionaries stored in `file_list`) is made
  explicit by letting `task_queue`, `current_task` and
  `current_batch_file` hold indices into `file_list`;
* the asynchronous pieces (the `DoOCRTask` submission to the external
  recognizer, the debounced `after(200, process_next_file)` timer, the
  result callback marshalled onto the Tk main thread) are modelled by an
  explicit submission log, an `after_pending` flag consumed by a
  `timer_fire` step, and an `ocr_result_callback` transition;
* the float expression `int(completed / total * 100)` of the source is
  modelled bit-exactly by `pyPercent`: the two ints convert exactly to
  binary64, the division and the multiplication by 100 each round to
  nearest (ties to even) at 53 significant bits, and `int` truncates;
  the model keeps an unbounded exponent (no underflow or overflow,
  which would need an astronomically long file list). The pipeline is
  pure natural-number arithmetic so that concrete runs evaluate inside
  the kernel.

Reachable states of the whole window are generated by `step` over the
user/async `Event`s (adding files, starting a batch, timer expiry,
result callbacks, closing the window, and the main windows
`reset_app_state`).
-/

namespace OcrApp

/-- Status of one batch file, mirroring the three status strings used by
`BatchOCRWindow` (waiting for processing, processing, done). -/
inductive Status where
  | pending
  | processing
  | done
deriving DecidableEq, Repr

/-- One entry of `BatchOCRWindow.file_list`: the dictionary built in
`add_single_file` and mutated by `process_next_file` and
`on_file_processed`. -/
structure FileInfo where
  path : String
  name : String
  status : Status
  progress : String
  result : Option String
  image_path : Option String
deriving DecidableEq, Repr

instance : Inhabited FileInfo := ⟨⟨"", "", Status.pending, "0%", none, none⟩⟩

/-- Provenance tag of a history record, mirroring the `raw_result`
dictionaries appended by the different branches of the source. -/
inductive HistTag where
  | batch (original_path : String)
  | batch_window_closed
  | selection
  | normal
deriving DecidableEq, Repr

/-- One append-only history record (timestamp omitted: the embedding has
no clock; the claims only count and tag records). -/
structure HistoryItem where
  image_path : String
  text : String
  tag : HistTag
deriving DecidableEq, Repr

/-- Combined state of the batch window (`BatchOCRWindow`) and the parts
of the parent `OCRApp` that the batch logic reads and writes.
`submissions` is the log of `DoOCRTask` calls issued by
`process_next_file` (as indices into `file_list`), `after_pending`
records a scheduled `after(200, process_next_file)` timer, and
`complete_events` counts invocations of `on_batch_complete`.
`bar_value` is the progress bar value and `displayed_completed`,
`displayed_total`, `displayed_percent` the progress label contents. -/
structure State where
  file_list : List FileInfo
  task_queue : List Nat
  current_task : Option Nat
  after_pending : Bool
  buttons_enabled : Bool
  window_exists : Bool
  is_batch_ocr : Bool
  current_batch_file : Option Nat
  ocr_running : Bool
  crop_path : Option String
  current_main_image_path : Option String
  history : List HistoryItem
  submissions : List Nat
  complete_events : Nat
  bar_value : Nat
  displayed_completed : Nat
  displayed_total : Nat
  displayed_percent : Nat
deriving DecidableEq, Repr

/-- Result of `start_batch_ocr`: the two refusal message boxes of the
source (empty file list, OCR service not running) and the started case. -/
inductive StartResult where
  | notStarted
  | serviceUnavailable
  | started
deriving DecidableEq, Repr

/-- Last path component, modelling `os.path.basename` for the forward
slash separator (the claims never depend on the name field). -/
def basename (p : String) : String :=
  (p.splitOn "/").getLastD p

/-- Number of files whose status is done: the source expression
`sum(1 for f in self.file_list if f['status'] == '处理完成')`. -/
def countDone (fl : List FileInfo) : Nat :=
  fl.countP (fun f => f.status == Status.done)

/-- Fuel-driven binary logarithm, structurally recursive so that the
kernel can evaluate it (`Nat.log2` is defined by well-founded recursion
and does not reduce): for positive `n` and fuel at least `n`, the unique
`L` with `2 ^ L ≤ n < 2 ^ (L + 1)`. -/
def log2fuel : Nat → Nat → Nat
  | 0, _ => 0
  | fuel + 1, n => if n ≤ 1 then 0 else log2fuel fuel (n / 2) + 1

/-- Binary logarithm of a natural number (zero on zero). -/
def natLog2 (n : Nat) : Nat := log2fuel n n

/-- Round-half-even integer rounding of the fraction `num / den`: the
rounding used by IEEE-754 binary64 arithmetic. -/
def hre (num den : Nat) : Nat :=
  let k := num / den
  let r := num % den
  if 2 * r < den then k
  else if den < 2 * r then k + 1
  else if k % 2 = 0 then k else k + 1

/-- Floor of the binary logarithm of the positive rational `m / n`. -/
def qlog2 (m n : Nat) : Int :=
  if n * 2 ^ natLog2 m ≤ m * 2 ^ natLog2 n then (natLog2 m : Int) - natLog2 n
  else (natLog2 m : Int) - natLog2 n - 1

/-- Floor of the dyadic number `s * 2 ^ e`. -/
def dyadicFloor (s : Nat) (e : Int) : Nat :=
  if 0 ≤ e then s * 2 ^ e.toNat else s / 2 ^ (-e).toNat

/-- Binary64 round-to-nearest-even of the positive fraction `m / n`
with unbounded exponent: the result is `s * 2 ^ e` where the exponent
`e` places the scaled value `(m / n) / 2 ^ e` in `[2 ^ 52, 2 ^ 53)` and
the significand `s` is its half-even integer rounding. -/
def rnd53pair (m n : Nat) : Nat × Int :=
  let e : Int := qlog2 m n - 52
  let num := if 0 ≤ e then m else m * 2 ^ (-e).toNat
  let den := if 0 ≤ e then n * 2 ^ e.toNat else n
  (hre num den, e)

/-- Numerator of the exact fraction representing 100 times the dyadic
`p.1 * 2 ^ p.2`. -/
def wNum (p : Nat × Int) : Nat :=
  if 0 ≤ p.2 then 100 * p.1 * 2 ^ p.2.toNat else 100 * p.1

/-- Denominator of the exact fraction representing 100 times the
dyadic `p.1 * 2 ^ p.2`. -/
def wDen (p : Nat × Int) : Nat :=
  if 0 ≤ p.2 then 1 else 2 ^ (-p.2).toNat

/-- Bit-exact value of the Python expression
`int(completed / total * 100)` (src lines 2658, 2723, 2939): the two
ints convert exactly to binary64, the true division rounds the exact
quotient to nearest (ties to even) at 53 significant bits, the
multiplication by the exact float 100.0 rounds its exact product the
same way, and `int` truncates towards zero. The product `100 * y` of
the dyadic first rounding `y` is presented to the second rounding as an
exact fraction. The exponent is unbounded (no underflow or overflow,
which would need an astronomically long file list); a zero divisor
(which the callers guard, and which would raise in Python) yields
zero. -/
def pyPercent (c t : Nat) : Nat :=
  if c = 0 ∨ t = 0 then 0
  else
    let q := rnd53pair (wNum (rnd53pair c t)) (wDen (rnd53pair c t))
    dyadicFloor q.1 q.2

/-- Guarded percentage `0 if total == 0 else int(completed / total * 100)`
as written in `start_batch_ocr` and `update_progress_display`. -/
def percentGuarded (completed total : Nat) : Nat :=
  if total = 0 then 0 else pyPercent completed total

/-- Indices of the files the source collects into the task queue at
batch start: `[f for f in self.file_list if f['status'] != '处理完成']`,
rendered as positions because the Python list holds references. -/
def nonDoneIdx (fl : List FileInfo) : List Nat :=
  (List.range fl.length).filter
    (fun i => ¬ (fl.getD i default).status == Status.done)

/-- Body of the reset loop of `start_batch_ocr`: every file that is not
done is put back to waiting with progress 0 percent. -/
def resetPending (f : FileInfo) : FileInfo :=
  if f.status = Status.done then f
  else { f with status := Status.pending, progress := "0%" }

/-- Model of `BatchOCRWindow.update_progress_display`. -/
def update_progress_display (s : State) : State :=
  let completed := countDone s.file_list
  let total := s.file_list.length
  let percent := percentGuarded completed total
  { s with bar_value := percent
           displayed_completed := completed
           displayed_total := total
           displayed_percent := percent }

/-- Model of `BatchOCRWindow.add_single_file`: reject a path already
present, otherwise append a waiting descriptor and refresh the progress
display; the Boolean is the return value of the source function. -/
def add_single_file (s : State) (path : String) : State × Bool :=
  if path ∈ s.file_list.map FileInfo.path then (s, false)
  else
    (update_progress_display
      { s with file_list :=
          s.file_list ++ [⟨path, basename path, Status.pending, "0%", none, none⟩] },
     true)

/-- Model of `BatchOCRWindow.on_batch_complete`: re-enable the buttons,
clear the parent batch flags, cancel the pending timer and show the
completion message (counted in `complete_events`). -/
def on_batch_complete (s : State) : State :=
  { s with buttons_enabled := true
           is_batch_ocr := false
           current_batch_file := none
           after_pending := false
           complete_events := s.complete_events + 1 }

/-- Model of `BatchOCRWindow.process_next_file`: an empty queue means
batch completion; otherwise pop the head, mark it processing, record it
as the current task, set the parent batch flags and issue exactly one
`DoOCRTask` submission (appended to the log). -/
def process_next_file (s : State) : State :=
  match s.task_queue with
  | [] => on_batch_complete s
  | i :: rest =>
    let f := s.file_list.getD i default
    { s with task_queue := rest
             current_task := some i
             file_list := s.file_list.set i { f with status := Status.processing }
             is_batch_ocr := true
             current_batch_file := some i
             submissions := s.submissions ++ [i] }

/-- Model of `BatchOCRWindow.start_batch_ocr`: refuse on an empty file
list, refuse when the OCR service is not running, otherwise disable the
buttons, rebuild the task queue from the non-done files, reset their
status, reset the aggregate progress display and process the first
file. -/
def start_batch_ocr (s : State) : State × StartResult :=
  if s.file_list = [] then (s, StartResult.notStarted)
  else if s.ocr_running = false then (s, StartResult.serviceUnavailable)
  else
    let q := nonDoneIdx s.file_list
    let fl := s.file_list.map resetPending
    let completed := fl.length - q.length
    let total := fl.length
    let s1 := { s with buttons_enabled := false
                       task_queue := q
                       file_list := fl
                       bar_value := 0
                       displayed_completed := completed
                       displayed_total := total
                       displayed_percent := percentGuarded completed total }
    (process_next_file s1, StartResult.started)

/-- Model of `BatchOCRWindow.on_file_processed`. The argument `i` stands
for the `file_info` reference the source receives. When the window is
gone the handler returns at once. When `file_info` is a member of
`file_list` (`i` in range, so `file_list.index` succeeds) the file is
marked done, the aggregate progress is recomputed with the unguarded
division of the source, a history record is appended and the next file
is scheduled via the debounce timer. When the membership lookup raises
`ValueError` the except branch only clears the current task and
schedules the timer. -/
def on_file_processed (s : State) (i : Nat) (ocr_result img_path : String) : State :=
  if s.window_exists = false then s
  else if h : i < s.file_list.length then
    let f := s.file_list.get ⟨i, h⟩
    let fl := s.file_list.set i
      { f with status := Status.done
               progress := "100%"
               result := some ocr_result
               image_path := some img_path }
    let completed := countDone fl
    let total := fl.length
    let percent := pyPercent completed total
    { s with file_list := fl
             bar_value := percent
             displayed_completed := completed
             displayed_total := total
             displayed_percent := percent
             history := s.history ++ [⟨img_path, ocr_result, HistTag.batch f.path⟩]
             current_task := none
             after_pending := true }
  else
    { s with current_task := none, after_pending := true }

/-- Model of `OCRApp.reset_app_state` restricted to the fields the batch
logic reads: the batch routing flag and the current batch file pointer
are cleared. -/
def reset_app_state (s : State) : State :=
  { s with is_batch_ocr := false, current_batch_file := none }

/-- Model of the debounce timer expiring: the `after(200, ...)` callback
registered by `on_file_processed` runs `process_next_file` once. -/
def timer_fire (s : State) : State :=
  if s.after_pending then process_next_file { s with after_pending := false }
  else s

/-- Model of `BatchOCRWindow.close_window`: with a current task or a
non-empty queue the user must confirm, otherwise closing is immediate;
on (confirmed) close the parent batch flags are reset, the pending timer
is cancelled, queue and current task are cleared and the window is
destroyed. -/
def close_window (s : State) (confirmed : Bool) : State :=
  if (s.current_task ≠ none ∨ s.task_queue ≠ []) ∧ confirmed = false then s
  else
    { s with is_batch_ocr := false
             current_batch_file := none
             after_pending := false
             task_queue := []
             current_task := none
             window_exists := false }

/-- Model of `BatchOCRWindow.clear_files` after the user confirmed: the
file list is emptied and the progress display reset. -/
def clear_files (s : State) : State :=
  { s with file_list := []
           bar_value := 0
           displayed_completed := 0
           displayed_total := 0
           displayed_percent := 0 }

/-- Model of `OCRApp.ocr_result_callback` (the body marshalled onto the
main thread). With the batch flag set and a current batch file the
result is routed to the batch window when it still exists, and otherwise
only recorded to history before the application state is reset. Without
the batch routing the selection branch or the plain branch appends one
ordinary history record. -/
def ocr_result_callback (s : State) (img_path ocr_text : String) : State :=
  if s.is_batch_ocr = true ∧ s.current_batch_file.isSome then
    if s.window_exists then
      on_file_processed s (s.current_batch_file.getD 0) ocr_text img_path
    else
      reset_app_state
        { s with history :=
            s.history ++ [⟨img_path, ocr_text, HistTag.batch_window_closed⟩] }
  else if s.crop_path = some img_path then
    { s with history :=
        s.history ++ [⟨s.current_main_image_path.getD "", ocr_text, HistTag.selection⟩]
             crop_path := none
             current_main_image_path := none }
  else
    { s with history := s.history ++ [⟨img_path, ocr_text, HistTag.normal⟩] }

/-- Events driving the window: user actions on live widgets, the
debounce timer, asynchronous recognizer results, and the parent windows
`reset_app_state` (which other main-window buttons invoke at any time). -/
inductive Event where
  | addFile (path : String)
  | startBatch
  | clearFiles
  | timerFire
  | ocrResult (img_path ocr_text : String)
  | closeWindow (confirmed : Bool)
  | mainReset
deriving DecidableEq, Repr

/-- One transition. Button driven events require the window to exist
(and the buttons to be enabled where the source disables them during a
run); drag and drop additions only require the window; callbacks and
the main window reset can arrive at any time. -/
def step (s : State) : Event → State
  | Event.addFile p => if s.window_exists then (add_single_file s p).1 else s
  | Event.startBatch =>
      if s.window_exists ∧ s.buttons_enabled then (start_batch_ocr s).1 else s
  | Event.clearFiles =>
      if s.window_exists ∧ s.buttons_enabled then clear_files s else s
  | Event.timerFire => timer_fire s
  | Event.ocrResult p t => ocr_result_callback s p t
  | Event.closeWindow c => if s.window_exists then close_window s c else s
  | Event.mainReset => reset_app_state s

/-- Run a list of events from a state. -/
def runEvents (s : State) (evs : List Event) : State :=
  evs.foldl step s

/-- State of a freshly opened `BatchOCRWindow` (empty lists, no current
task, no pending timer, live window, buttons enabled), parameterised by
whether the OCR service is running. -/
def initState (running : Bool) : State :=
  { file_list := []
    task_queue := []
    current_task := none
    after_pending := false
    buttons_enabled := true
    window_exists := true
    is_batch_ocr := false
    current_batch_file := none
    ocr_running := running
    crop_path := none
    current_main_image_path := none
    history := []
    submissions := []
    complete_events := 0
    bar_value := 0
    displayed_completed := 0
    displayed_total := 0
    displayed_percent := 0 }

/-- Reachability of a window state from a fresh window by any event
interleaving. -/
inductive Reachable : State → Prop where
  | init (running : Bool) : Reachable (initState running)
  | next (s : State) (e : Event) : Reachable s → Reachable (step s e)

/-- Run of a whole batch: after `start_batch_ocr`, each round delivers
one recognizer result (the pair is the image path and text reported)
and then lets the debounce timer fire. -/
def drain : List (String × String) → State → State
  | [], s => s
  | r :: rs, s => drain rs (timer_fire (ocr_result_callback s r.1 r.2))

/-- Number of files currently in processing state. -/
def countProcessing (fl : List FileInfo) : Nat :=
  fl.countP (fun f => f.status == Status.processing)

/-- At most one file of the list is in processing state, phrased as
uniqueness of the processing position. -/
def atMostOneProcessing (fl : List FileInfo) : Prop :=
  ∀ i j (hi : i < fl.length) (hj : j < fl.length),
    (fl[i]).status = Status.processing → (fl[j]).status = Status.processing → i = j

/-- Inductive invariant of the batch window state machine. Besides the
claimed single-processing property it carries the bookkeeping facts
needed to push it through every event: the relation between the pending
timer, the enabled buttons, the current-task slot, the parent pointer
and the bounds of the queued indices. -/
structure Inv (s : State) : Prop where
  one : atMostOneProcessing s.file_list
  procCur : s.window_exists = true → ∀ i (hi : i < s.file_list.length),
      (s.file_list[i]).status = Status.processing → s.current_task = some i
  afterCur : s.after_pending = true → s.current_task = none
  btns : s.buttons_enabled = true → s.after_pending = false ∧ s.current_task = none
  batchBtns : s.is_batch_ocr = true → s.buttons_enabled = false
  curCbf : s.is_batch_ocr = true → ∀ i, s.current_task = some i →
      s.current_batch_file = some i
  closedQuiet : s.window_exists = false → s.current_task = none ∧ s.after_pending = false
  cbfLt : s.is_batch_ocr = true → ∀ j, s.current_batch_file = some j →
      j < s.file_list.length
  queueLt : ∀ i ∈ s.task_queue, i < s.file_list.length
  btnsQueue : s.buttons_enabled = true → s.task_queue = []

/-- A pending descriptor as built by `add_single_file` for path `p`
(with `p` containing no separator, so the display name is `p` itself). -/
def sampleFile (p : String) : FileInfo :=
  ⟨p, p, Status.pending, "0%", none, none⟩

/-- A descriptor of an already recognized file. -/
def sampleDone (p : String) : FileInfo :=
  ⟨p, p, Status.done, "100%", some "txt", some p⟩

/-- Fresh window with two files enqueued. -/
def sTwoPending : State :=
  runEvents (initState true) [Event.addFile "a.png", Event.addFile "b.png"]

/-- Two enqueued files with the batch started: the first file is in
flight. -/
def sMidRun : State :=
  runEvents (initState true)
    [Event.addFile "a.png", Event.addFile "b.png", Event.startBatch]

/-- A window whose single file is already done. -/
def sAllDone : State :=
  { initState true with file_list := [sampleDone "a.png"] }

/-- A window with one file while the OCR service is not running. -/
def sNotRunning : State :=
  { initState false with file_list := [sampleFile "a.png"] }

/-- Batch routing active for file 0 but the batch window destroyed. -/
def sClosedMid : State :=
  { initState true with
      is_batch_ocr := true
      current_batch_file := some 0
      window_exists := false
      file_list := [⟨"a.png", "a.png", Status.processing, "0%", none, none⟩] }

/-- Batch routing active for file 0 with a live window. -/
def sOpenMid : State :=
  { initState true with
      is_batch_ocr := true
      current_batch_file := some 0
      current_task := some 0
      file_list := [⟨"a.png", "a.png", Status.processing, "0%", none, none⟩] }

/-- Concrete run observed mid-batch: two files enqueued, batch started,
first completion delivered. -/
def c6Mid : State :=
  runEvents (initState true)
    [Event.addFile "a.png", Event.addFile "b.png", Event.startBatch,
     Event.ocrResult "x" "t1"]

/-- The same run after five drag-and-drop additions, the debounce timer
and the second completion. -/
def c6Fin : State :=
  runEvents c6Mid
    [Event.addFile "c.png", Event.addFile "d.png", Event.addFile "e.png",
     Event.addFile "f.png", Event.addFile "g.png",
     Event.timerFire, Event.ocrResult "y" "t2"]

/-- Membership in the rebuilt task queue: exactly the in-range positions
whose file is not done. -/
lemma mem_nonDoneIdx {fl : List FileInfo} {i : Nat} :
    i ∈ nonDoneIdx fl ↔
      i < fl.length ∧ ¬ (fl.getD i default).status = Status.done := by
  simp [nonDoneIdx, List.mem_filter, List.mem_range]

/-- In-range default lookup agrees with indexed lookup. -/
lemma getD_eq_getElem_of_lt {fl : List FileInfo} {i : Nat} (h : i < fl.length) :
    fl.getD i default = fl[i] := by
  rw [List.getD_eq_getElem]

/-- Positions in the rebuilt task queue are in range. -/
lemma nonDoneIdx_lt {fl : List FileInfo} {i : Nat} (h : i ∈ nonDoneIdx fl) :
    i < fl.length :=
  (mem_nonDoneIdx.mp h).1

/-- Positional uniqueness bounds the processing count by one. -/
lemma countProcessing_le_one {fl : List FileInfo} (h : atMostOneProcessing fl) :
    countProcessing fl ≤ 1 := by
  induction fl with
  | nil => simp [countProcessing]
  | cons a t ih =>
    by_cases ha : a.status = Status.processing
    · have ht : countProcessing t = 0 := by
        rw [countProcessing, List.countP_eq_zero]
        intro x hx
        rcases List.mem_iff_get.mp hx with ⟨⟨k, hk⟩, hget⟩
        have hx2 : t[k] = x := by
          simpa using hget
        simp only [beq_iff_eq]
        intro hxp
        have h0 : (0 : Nat) < (a :: t).length := by simp
        have hk1 : k + 1 < (a :: t).length := by simpa using Nat.succ_lt_succ hk
        have hcon : (0 : Nat) = k + 1 := by
          apply h 0 (k + 1) h0 hk1
          · simpa using ha
          · simpa [hx2] using hxp
        exact absurd hcon (by omega)
      have hcnt : countProcessing (a :: t) = countProcessing t + 1 := by
        simp [countProcessing, List.countP_cons, ha]
      omega
    · have h2 : atMostOneProcessing t := by
        intro i j hi hj hpi hpj
        have hi1 : i + 1 < (a :: t).length := by simpa using Nat.succ_lt_succ hi
        have hj1 : j + 1 < (a :: t).length := by simpa using Nat.succ_lt_succ hj
        have : i + 1 = j + 1 := by
          apply h (i + 1) (j + 1) hi1 hj1
          · simpa using hpi
          · simpa using hpj
        omega
      have hcnt : countProcessing (a :: t) = countProcessing t := by
        simp [countProcessing, List.countP_cons, ha]
      have := ih h2
      omega

/-- A map that fixes every element of a list is the identity on it. -/
lemma map_eq_self_of_mem {α : Type} {f : α → α} {l : List α}
    (h : ∀ x ∈ l, f x = x) : l.map f = l := by
  induction l with
  | nil => rfl
  | cons a t ih =>
    simp only [List.map_cons, List.cons.injEq]
    exact ⟨h a (by simp), ih fun x hx => h x (by simp [hx])⟩

/-- The invariant holds after `process_next_file` whenever it is entered
in a quiescent configuration: live window, buttons already disabled, no
pending timer, no current task, no file processing, and queued indices
in range. Both call sites (`start_batch_ocr` and the debounce timer)
are in this configuration. -/
lemma inv_pnf (s : State)
    (hw : s.window_exists = true)
    (hb : s.buttons_enabled = false)
    (hap : s.after_pending = false)
    (hct : s.current_task = none)
    (hnp : ∀ i (hi : i < s.file_list.length),
      (s.file_list[i]).status ≠ Status.processing)
    (hq : ∀ i ∈ s.task_queue, i < s.file_list.length) :
    Inv (process_next_file s) := by
  rcases hqe : s.task_queue with _ | ⟨i, rest⟩
  · have hstate : process_next_file s = on_batch_complete s := by
      simp [process_next_file, hqe]
    rw [hstate]
    refine ⟨?_, ?_, ?_, ?_, ?_, ?_, ?_, ?_, ?_, ?_⟩
    · intro a b hia hib hpa hpb
      exact absurd hpa (hnp a (by simpa [on_batch_complete] using hia))
    · intro _ a hia hpa
      exact absurd hpa (hnp a (by simpa [on_batch_complete] using hia))
    · simp [on_batch_complete]
    · simp [on_batch_complete, hct]
    · simp [on_batch_complete]
    · simp [on_batch_complete]
    · simp [on_batch_complete, hw]
    · simp [on_batch_complete]
    · simp [on_batch_complete, hqe]
    · simp [on_batch_complete, hqe]
  · have hi : i < s.file_list.length := hq i (by simp [hqe])
    have hstate : process_next_file s =
        { s with task_queue := rest
                 current_task := some i
                 file_list := s.file_list.set i
                   { s.file_list.getD i default with status := Status.processing }
                 is_batch_ocr := true
                 current_batch_file := some i
                 submissions := s.submissions ++ [i] } := by
      simp [process_next_file, hqe]
    rw [hstate]
    have hlen : (s.file_list.set i
        { s.file_list.getD i default with status := Status.processing }).length =
        s.file_list.length := by simp
    have honly : ∀ a (ha : a < (s.file_list.set i
          { s.file_list.getD i default with status := Status.processing }).length),
        ((s.file_list.set i
          { s.file_list.getD i default with status := Status.processing })[a]).status =
          Status.processing → a = i := by
      intro a ha hpa
      by_contra hne
      rw [List.getElem_set_ne (by omega)] at hpa
      exact hnp a (by simpa using ha) hpa
    refine ⟨?_, ?_, ?_, ?_, ?_, ?_, ?_, ?_, ?_, ?_⟩
    · intro a b hia hib hpa hpb
      have ha := honly a (by simpa using hia) hpa
      have hb2 := honly b (by simpa using hib) hpb
      omega
    · intro _ a hia hpa
      have := honly a (by simpa using hia) hpa
      simp [this]
    · simp [hap]
    · simp [hb]
    · simp [hb]
    · simp
    · simp [hw]
    · simpa using hi
    · intro a ha
      have : a ∈ s.task_queue := by simp [hqe, ha]
      simpa using hq a this
    · simp [hb]

/-- Invariant transfer between states agreeing on every field the
invariant mentions. -/
lemma inv_transfer (s t : State) (h : Inv s)
    (hfl : t.file_list = s.file_list) (htq : t.task_queue = s.task_queue)
    (hct : t.current_task = s.current_task) (hap : t.after_pending = s.after_pending)
    (hbe : t.buttons_enabled = s.buttons_enabled)
    (hwin : t.window_exists = s.window_exists)
    (hib : t.is_batch_ocr = s.is_batch_ocr)
    (hcb : t.current_batch_file = s.current_batch_file) : Inv t := by
  refine ⟨?_, ?_, ?_, ?_, ?_, ?_, ?_, ?_, ?_, ?_⟩
  · rw [hfl]; exact h.one
  · simp only [hfl, hct, hwin]; exact h.procCur
  · simp only [hct, hap]; exact h.afterCur
  · simp only [hbe, hap, hct]; exact h.btns
  · simp only [hib, hbe]; exact h.batchBtns
  · simp only [hib, hct, hcb]; exact h.curCbf
  · simp only [hwin, hct, hap]; exact h.closedQuiet
  · simp only [hib, hcb, hfl]; exact h.cbfLt
  · simp only [htq, hfl]; exact h.queueLt
  · simp only [hbe, htq]; exact h.btnsQueue

/-- Invariant transfer when the batch flag has just been cleared and all
other relevant fields are unchanged. -/
lemma inv_transfer_reset (s t : State) (h : Inv s)
    (hfl : t.file_list = s.file_list) (htq : t.task_queue = s.task_queue)
    (hct : t.current_task = s.current_task) (hap : t.after_pending = s.after_pending)
    (hbe : t.buttons_enabled = s.buttons_enabled)
    (hwin : t.window_exists = s.window_exists)
    (hib : t.is_batch_ocr = false) : Inv t := by
  refine ⟨?_, ?_, ?_, ?_, ?_, ?_, ?_, ?_, ?_, ?_⟩
  · rw [hfl]; exact h.one
  · simp only [hfl, hct, hwin]; exact h.procCur
  · simp only [hct, hap]; exact h.afterCur
  · simp only [hbe, hap, hct]; exact h.btns
  · simp [hib]
  · simp [hib]
  · simp only [hwin, hct, hap]; exact h.closedQuiet
  · simp [hib]
  · simp only [htq, hfl]; exact h.queueLt
  · simp only [hbe, htq]; exact h.btnsQueue

/-- The invariant is preserved by `on_file_processed` when the call is
routed from `ocr_result_callback` in batch mode (so the processed index
is the current batch file of the parent). -/
lemma inv_ofp (s : State) (h : Inv s) (j : Nat) (t p : String)
    (hb1 : s.is_batch_ocr = true) (hcbf : s.current_batch_file = some j) :
    Inv (on_file_processed s j t p) := by
  by_cases hw : s.window_exists = true
  · have hj : j < s.file_list.length := h.cbfLt hb1 j hcbf
    have hwf : ¬ s.window_exists = false := by simp [hw]
    have hstate : on_file_processed s j t p =
        { s with file_list := s.file_list.set j
                   { s.file_list.get ⟨j, hj⟩ with
                       status := Status.done
                       progress := "100%"
                       result := some t
                       image_path := some p }
                 bar_value := pyPercent (countDone (s.file_list.set j
                   { s.file_list.get ⟨j, hj⟩ with
                       status := Status.done
                       progress := "100%"
                       result := some t
                       image_path := some p })) s.file_list.length
                 displayed_completed := countDone (s.file_list.set j
                   { s.file_list.get ⟨j, hj⟩ with
                       status := Status.done
                       progress := "100%"
                       result := some t
                       image_path := some p })
                 displayed_total := s.file_list.length
                 displayed_percent := pyPercent (countDone (s.file_list.set j
                   { s.file_list.get ⟨j, hj⟩ with
                       status := Status.done
                       progress := "100%"
                       result := some t
                       image_path := some p })) s.file_list.length
                 history := s.history ++
                   [⟨p, t, HistTag.batch (s.file_list.get ⟨j, hj⟩).path⟩]
                 current_task := none
                 after_pending := true } := by
      simp [on_file_processed, hwf, hj]
    rw [hstate]
    have hnp2 : ∀ a (ha : a < (s.file_list.set j
          { s.file_list.get ⟨j, hj⟩ with
              status := Status.done
              progress := "100%"
              result := some t
              image_path := some p }).length),
        ((s.file_list.set j
          { s.file_list.get ⟨j, hj⟩ with
              status := Status.done
              progress := "100%"
              result := some t
              image_path := some p })[a]).status ≠
          Status.processing := by
      intro a ha hpa
      have ha2 : a < s.file_list.length := by simpa using ha
      by_cases haj : a = j
      · subst haj
        rw [List.getElem_set_self] at hpa
        exact Status.noConfusion hpa
      · rw [List.getElem_set_ne (by omega)] at hpa
        have hcur := h.procCur hw a ha2 hpa
        have := h.curCbf hb1 a hcur
        rw [hcbf] at this
        exact haj (by injection this.symm)
    refine ⟨?_, ?_, ?_, ?_, ?_, ?_, ?_, ?_, ?_, ?_⟩
    · intro a b hia hib2 hpa hpb
      exact absurd hpa (hnp2 a (by simpa using hia))
    · intro _ a hia hpa
      exact absurd hpa (hnp2 a (by simpa using hia))
    · simp
    · intro hbe
      have hbe2 : s.buttons_enabled = true := hbe
      have hbf := h.batchBtns hb1
      rw [hbe2] at hbf
      exact Bool.noConfusion hbf
    · simpa using h.batchBtns
    · simp
    · simp [hw]
    · intro _ a ha
      have ha2 : s.current_batch_file = some a := ha
      rw [hcbf] at ha2
      have haj : j = a := by injection ha2
      subst haj
      simpa using hj
    · intro a ha
      have := h.queueLt a ha
      simpa using this
    · intro hbe
      have hbe2 : s.buttons_enabled = true := hbe
      have hbf := h.batchBtns hb1
      rw [hbe2] at hbf
      exact Bool.noConfusion hbf
  · have hwf : s.window_exists = false := by simpa using hw
    have hstate : on_file_processed s j t p = s := by
      simp [on_file_processed, hwf]
    rw [hstate]; exact h

/-- The invariant is preserved by the result callback. -/
lemma inv_ocr (s : State) (h : Inv s) (p t : String) :
    Inv (ocr_result_callback s p t) := by
  by_cases hbatch : s.is_batch_ocr = true ∧ s.current_batch_file.isSome
  · rcases hcbf : s.current_batch_file with _ | j
    · rw [hcbf] at hbatch; simp at hbatch
    · by_cases hw : s.window_exists = true
      · have hstate : ocr_result_callback s p t = on_file_processed s j t p := by
          simp [ocr_result_callback, hbatch, hcbf, hw]
        rw [hstate]
        exact inv_ofp s h j t p hbatch.1 hcbf
      · have hwf : s.window_exists = false := by simpa using hw
        have hstate : ocr_result_callback s p t =
            reset_app_state
              { s with history :=
                  s.history ++ [⟨p, t, HistTag.batch_window_closed⟩] } := by
          simp [ocr_result_callback, hbatch, hwf]
        rw [hstate]
        exact inv_transfer_reset s _ h rfl rfl rfl rfl rfl rfl rfl
  · by_cases hcrop : s.crop_path = some p
    · have hstate : ocr_result_callback s p t =
          { s with history := s.history ++
              [⟨s.current_main_image_path.getD "", t, HistTag.selection⟩]
                   crop_path := none
                   current_main_image_path := none } := by
        simp [ocr_result_callback, hbatch, hcrop]
      rw [hstate]
      exact inv_transfer s _ h rfl rfl rfl rfl rfl rfl rfl rfl
    · have hstate : ocr_result_callback s p t =
          { s with history := s.history ++ [⟨p, t, HistTag.normal⟩] } := by
        simp [ocr_result_callback, hbatch, hcrop]
      rw [hstate]
      exact inv_transfer s _ h rfl rfl rfl rfl rfl rfl rfl rfl

/-- The invariant is preserved by `start_batch_ocr` when the start
button is actually clickable (live window, buttons enabled). -/
lemma inv_start (s : State) (h : Inv s)
    (hw : s.window_exists = true) (hbe : s.buttons_enabled = true) :
    Inv ((start_batch_ocr s).1) := by
  by_cases he : s.file_list = []
  · have : (start_batch_ocr s).1 = s := by simp [start_batch_ocr, he]
    rw [this]; exact h
  · by_cases hr : s.ocr_running = false
    · have : (start_batch_ocr s).1 = s := by simp [start_batch_ocr, he, hr]
      rw [this]; exact h
    · have hstate : (start_batch_ocr s).1 = process_next_file
          { s with buttons_enabled := false
                   task_queue := nonDoneIdx s.file_list
                   file_list := s.file_list.map resetPending
                   bar_value := 0
                   displayed_completed :=
                     (s.file_list.map resetPending).length -
                       (nonDoneIdx s.file_list).length
                   displayed_total := (s.file_list.map resetPending).length
                   displayed_percent := percentGuarded
                     ((s.file_list.map resetPending).length -
                       (nonDoneIdx s.file_list).length)
                     (s.file_list.map resetPending).length } := by
        simp [start_batch_ocr, he, hr]
      rw [hstate]
      apply inv_pnf
      · simpa using hw
      · simp
      · simpa using (h.btns hbe).1
      · simpa using (h.btns hbe).2
      · intro a ha hpa
        have ha2 : a < s.file_list.length := by simpa using ha
        rw [List.getElem_map] at hpa
        revert hpa
        unfold resetPending
        split <;> simp_all
      · intro a ha
        have := nonDoneIdx_lt (by simpa using ha : a ∈ nonDoneIdx s.file_list)
        simpa using this

/-- The invariant is preserved by the debounce timer. -/
lemma inv_timer (s : State) (h : Inv s) : Inv (timer_fire s) := by
  by_cases hap : s.after_pending = true
  · have hct := h.afterCur hap
    have hw : s.window_exists = true := by
      by_contra hw2
      have := (h.closedQuiet (by simpa using hw2)).2
      rw [hap] at this
      exact Bool.noConfusion this
    have hb : s.buttons_enabled = false := by
      by_contra hb2
      have := (h.btns (by simpa using hb2)).1
      rw [hap] at this
      exact Bool.noConfusion this
    have hstate : timer_fire s = process_next_file { s with after_pending := false } := by
      simp [timer_fire, hap]
    rw [hstate]
    apply inv_pnf
    · simpa using hw
    · simpa using hb
    · simp
    · simpa using hct
    · intro a ha hpa
      have ha2 : a < s.file_list.length := by simpa using ha
      have := h.procCur hw a ha2 (by simpa using hpa)
      rw [hct] at this
      exact Option.noConfusion this
    · intro a ha
      exact h.queueLt a (by simpa using ha)
  · have haf : s.after_pending = false := by simpa using hap
    have : timer_fire s = s := by simp [timer_fire, haf]
    rw [this]; exact h

/-- The invariant is preserved by `close_window`. -/
lemma inv_close (s : State) (h : Inv s) (c : Bool) : Inv (close_window s c) := by
  by_cases hcond : (s.current_task ≠ none ∨ s.task_queue ≠ []) ∧ c = false
  · unfold close_window
    rw [if_pos hcond]
    exact h
  · unfold close_window
    rw [if_neg hcond]
    refine ⟨?_, ?_, ?_, ?_, ?_, ?_, ?_, ?_, ?_, ?_⟩
    · exact h.one
    · intro hw2
      exact absurd hw2 (by simp)
    · simp
    · simp
    · simp
    · simp
    · simp
    · simp
    · simp
    · simp

/-- The invariant is preserved by the parent reset. -/
lemma inv_reset (s : State) (h : Inv s) : Inv (reset_app_state s) :=
  inv_transfer_reset s _ h rfl rfl rfl rfl rfl rfl rfl

/-- The invariant is preserved by `add_single_file`. -/
lemma inv_add (s : State) (h : Inv s) (p : String) :
    Inv ((add_single_file s p).1) := by
  by_cases hdup : p ∈ s.file_list.map FileInfo.path
  · have : (add_single_file s p).1 = s := by simp [add_single_file, hdup]
    rw [this]; exact h
  · have hstate : (add_single_file s p).1 = update_progress_display
        { s with file_list := s.file_list ++
            [⟨p, basename p, Status.pending, "0%", none, none⟩] } := by
      simp [add_single_file, hdup]
    rw [hstate]
    refine inv_transfer
      { s with file_list := s.file_list ++
          [⟨p, basename p, Status.pending, "0%", none, none⟩] }
      _ ?_ rfl rfl rfl rfl rfl rfl rfl rfl
    have happ : ∀ a (ha : a < (s.file_list ++
          [(⟨p, basename p, Status.pending, "0%", none, none⟩ : FileInfo)]).length),
        ((s.file_list ++
          [(⟨p, basename p, Status.pending, "0%", none, none⟩ : FileInfo)])[a]).status =
          Status.processing → a < s.file_list.length := by
      intro a ha hpa
      by_contra hge
      have hae : a = s.file_list.length := by
        have h2 : a < s.file_list.length + 1 := by simpa using ha
        omega
      subst hae
      rw [List.getElem_concat_length _ _ _ rfl] at hpa
      exact Status.noConfusion hpa
    refine ⟨?_, ?_, ?_, ?_, ?_, ?_, ?_, ?_, ?_, ?_⟩
    · intro a b ha hb2 hpa hpb
      have ha2 := happ a (by simpa using ha) hpa
      have hb3 := happ b (by simpa using hb2) hpb
      rw [List.getElem_append_left ha2] at hpa
      rw [List.getElem_append_left hb3] at hpb
      exact h.one a b ha2 hb3 hpa hpb
    · intro hw a ha hpa
      have ha2 := happ a (by simpa using ha) hpa
      rw [List.getElem_append_left ha2] at hpa
      exact h.procCur hw a ha2 hpa
    · exact h.afterCur
    · exact h.btns
    · exact h.batchBtns
    · exact h.curCbf
    · exact h.closedQuiet
    · intro hib j hj
      have := h.cbfLt hib j hj
      simp
      omega
    · intro a ha
      have := h.queueLt a ha
      simp
      omega
    · exact h.btnsQueue

/-- The invariant is preserved by a confirmed `clear_files`. -/
lemma inv_clear (s : State) (h : Inv s) (hbe : s.buttons_enabled = true) :
    Inv (clear_files s) := by
  have hq0 : s.task_queue = [] := h.btnsQueue hbe
  refine ⟨?_, ?_, ?_, ?_, ?_, ?_, ?_, ?_, ?_, ?_⟩
  · intro a b ha hb2 hpa hpb
    simp [clear_files] at ha
  · intro hw a ha hpa
    simp [clear_files] at ha
  · exact h.afterCur
  · exact h.btns
  · exact h.batchBtns
  · exact h.curCbf
  · exact h.closedQuiet
  · intro hib j hj
    have := h.batchBtns hib
    rw [hbe] at this
    exact Bool.noConfusion this
  · intro a ha
    have ha2 : a ∈ s.task_queue := ha
    rw [hq0] at ha2
    simp at ha2
  · intro _
    exact hq0

/-- The invariant holds in a fresh window state. -/
lemma inv_init (running : Bool) : Inv (initState running) := by
  refine ⟨?_, ?_, ?_, ?_, ?_, ?_, ?_, ?_, ?_, ?_⟩ <;>
    simp [initState, atMostOneProcessing]

/-- The invariant is preserved by every event. -/
lemma inv_step (s : State) (e : Event) (h : Inv s) : Inv (step s e) := by
  cases e with
  | addFile p =>
    by_cases hw : s.window_exists = true
    · have : step s (Event.addFile p) = (add_single_file s p).1 := by
        simp [step, hw]
      rw [this]; exact inv_add s h p
    · have : step s (Event.addFile p) = s := by simp [step, hw]
      rw [this]; exact h
  | startBatch =>
    by_cases hc : s.window_exists = true ∧ s.buttons_enabled = true
    · have : step s Event.startBatch = (start_batch_ocr s).1 := by
        simp only [step]
        rw [if_pos (by simpa using hc)]
      rw [this]; exact inv_start s h hc.1 hc.2
    · have : step s Event.startBatch = s := by
        simp only [step]
        rw [if_neg (by simpa using hc)]
      rw [this]; exact h
  | clearFiles =>
    by_cases hc : s.window_exists = true ∧ s.buttons_enabled = true
    · have : step s Event.clearFiles = clear_files s := by
        simp only [step]
        rw [if_pos (by simpa using hc)]
      rw [this]; exact inv_clear s h hc.2
    · have : step s Event.clearFiles = s := by
        simp only [step]
        rw [if_neg (by simpa using hc)]
      rw [this]; exact h
  | timerFire => exact inv_timer s h
  | ocrResult p t => exact inv_ocr s h p t
  | closeWindow c =>
    by_cases hw : s.window_exists = true
    · have : step s (Event.closeWindow c) = close_window s c := by
        simp [step, hw]
      rw [this]; exact inv_close s h c
    · have : step s (Event.closeWindow c) = s := by simp [step, hw]
      rw [this]; exact h
  | mainReset => exact inv_reset s h

/-- Every reachable state satisfies the invariant. -/
lemma inv_reachable (s : State) (h : Reachable s) : Inv s := by
  induction h with
  | init running => exact inv_init running
  | next s e _ ih => exact inv_step s e ih

/-- Routing of the result callback in batch mode with a live window. -/
lemma cb_routes_to_ofp (s : State) (p t : String) (c : Nat)
    (hb : s.is_batch_ocr = true) (hcbf : s.current_batch_file = some c)
    (hw : s.window_exists = true) :
    ocr_result_callback s p t = on_file_processed s c t p := by
  simp [ocr_result_callback, hb, hcbf, hw]

/-- Field bookkeeping of `on_file_processed` on an in-range file with a
live window. -/
lemma ofp_fields (s : State) (j : Nat) (t p : String)
    (hw : s.window_exists = true) (hj : j < s.file_list.length) :
    (on_file_processed s j t p).submissions = s.submissions ∧
    (on_file_processed s j t p).task_queue = s.task_queue ∧
    (on_file_processed s j t p).after_pending = true ∧
    (on_file_processed s j t p).window_exists = true ∧
    (on_file_processed s j t p).is_batch_ocr = s.is_batch_ocr ∧
    (on_file_processed s j t p).current_batch_file = s.current_batch_file ∧
    (on_file_processed s j t p).file_list.length = s.file_list.length ∧
    (on_file_processed s j t p).history =
      s.history ++ [⟨p, t, HistTag.batch (s.file_list[j]).path⟩] ∧
    (on_file_processed s j t p).current_task = none ∧
    (on_file_processed s j t p).complete_events = s.complete_events := by
  have hwf : ¬ s.window_exists = false := by simp [hw]
  simp [on_file_processed, hwf, hj, hw]

/-- Field bookkeeping of `process_next_file` popping a queue head: one
submission is issued for the head. -/
lemma pnf_fields_cons (s : State) (i : Nat) (rest : List Nat)
    (hq : s.task_queue = i :: rest) :
    (process_next_file s).submissions = s.submissions ++ [i] ∧
    (process_next_file s).task_queue = rest ∧
    (process_next_file s).current_task = some i ∧
    (process_next_file s).current_batch_file = some i ∧
    (process_next_file s).is_batch_ocr = true ∧
    (process_next_file s).after_pending = s.after_pending ∧
    (process_next_file s).window_exists = s.window_exists ∧
    (process_next_file s).file_list.length = s.file_list.length ∧
    (process_next_file s).history = s.history ∧
    (process_next_file s).complete_events = s.complete_events := by
  simp [process_next_file, hq]

/-- On an empty queue `process_next_file` only reports completion. -/
lemma pnf_nil (s : State) (hq : s.task_queue = []) :
    process_next_file s = on_batch_complete s := by
  simp [process_next_file, hq]

/-- Field bookkeeping of `on_batch_complete`: no submission is issued. -/
lemma obc_fields (s : State) :
    (on_batch_complete s).submissions = s.submissions ∧
    (on_batch_complete s).task_queue = s.task_queue ∧
    (on_batch_complete s).is_batch_ocr = false ∧
    (on_batch_complete s).current_batch_file = none ∧
    (on_batch_complete s).after_pending = false ∧
    (on_batch_complete s).file_list = s.file_list ∧
    (on_batch_complete s).history = s.history ∧
    (on_batch_complete s).complete_events = s.complete_events + 1 := by
  simp [on_batch_complete]

/-- The timer step with a pending timer runs the queue driver once. -/
lemma timer_fires (s : State) (hap : s.after_pending = true) :
    timer_fire s = process_next_file { s with after_pending := false } := by
  simp [timer_fire, hap]

/-- A full mid-run drain: from a state with current batch file `c` in
flight, an empty pending timer, and queue `q`, delivering one completion
per remaining round submits exactly the queued indices in order. -/
lemma drain_run (q : List Nat) : ∀ (s : State) (rs : List (String × String)) (c : Nat),
    s.task_queue = q →
    rs.length = q.length + 1 →
    s.window_exists = true →
    s.is_batch_ocr = true →
    s.current_batch_file = some c →
    c < s.file_list.length →
    s.after_pending = false →
    (∀ i ∈ q, i < s.file_list.length) →
    (drain rs s).submissions = s.submissions ++ q ∧
    (drain rs s).complete_events = s.complete_events + 1 := by
  induction q with
  | nil =>
    intro s rs c hq hlen hw hb hcbf hc hap hbnd
    rcases rs with _ | ⟨r, rs2⟩
    · simp at hlen
    · rcases rs2 with _ | ⟨r2, rs3⟩
      · have hcb := cb_routes_to_ofp s r.1 r.2 c hb hcbf hw
        have hf := ofp_fields s c r.2 r.1 hw hc
        have htq2 : (on_file_processed s c r.2 r.1).task_queue = [] := by
          rw [hf.2.1, hq]
        have ht := timer_fires (on_file_processed s c r.2 r.1) hf.2.2.1
        have hnil : ({ on_file_processed s c r.2 r.1 with
            after_pending := false } : State).task_queue = [] := htq2
        have hdrain : drain [r] s =
            on_batch_complete { on_file_processed s c r.2 r.1 with
              after_pending := false } := by
          show drain [] (timer_fire (ocr_result_callback s r.1 r.2)) = _
          rw [hcb, ht, pnf_nil _ hnil]
          rfl
        rw [hdrain]
        constructor
        · rw [(obc_fields _).1]
          show (on_file_processed s c r.2 r.1).submissions = s.submissions ++ []
          rw [hf.1, List.append_nil]
        · rw [(obc_fields _).2.2.2.2.2.2.2]
          show (on_file_processed s c r.2 r.1).complete_events + 1 =
            s.complete_events + 1
          rw [hf.2.2.2.2.2.2.2.2.2]
      · simp at hlen
  | cons hd tl ih =>
    intro s rs c hq hlen hw hb hcbf hc hap hbnd
    rcases rs with _ | ⟨r, rs2⟩
    · simp at hlen
    · have hlen2 : rs2.length = tl.length + 1 := by simpa using hlen
      have hcb := cb_routes_to_ofp s r.1 r.2 c hb hcbf hw
      have hf := ofp_fields s c r.2 r.1 hw hc
      have ht := timer_fires (on_file_processed s c r.2 r.1) hf.2.2.1
      have htq2 : ({ on_file_processed s c r.2 r.1 with
          after_pending := false } : State).task_queue = hd :: tl := by
        show (on_file_processed s c r.2 r.1).task_queue = hd :: tl
        rw [hf.2.1, hq]
      have hp := pnf_fields_cons _ hd tl htq2
      have hdrain : drain (r :: rs2) s =
          drain rs2 (process_next_file { on_file_processed s c r.2 r.1 with
            after_pending := false }) := by
        show drain rs2 (timer_fire (ocr_result_callback s r.1 r.2)) = _
        rw [hcb, ht]
      rw [hdrain]
      have hlenfl : ({ on_file_processed s c r.2 r.1 with
          after_pending := false } : State).file_list.length =
          s.file_list.length := hf.2.2.2.2.2.2.1
      have hih := ih (process_next_file { on_file_processed s c r.2 r.1 with
          after_pending := false }) rs2 hd hp.2.1 hlen2
        (by rw [hp.2.2.2.2.2.2.1]; exact hf.2.2.2.1)
        hp.2.2.2.2.1
        hp.2.2.2.1
        (by rw [hp.2.2.2.2.2.2.2.1, hlenfl]
            exact hbnd hd (by simp))
        (by rw [hp.2.2.2.2.2.1])
        (by intro a ha
            rw [hp.2.2.2.2.2.2.2.1, hlenfl]
            exact hbnd a (by simp [ha]))
      refine ⟨?_, ?_⟩
      · rw [hih.1, hp.1, hf.1]
        simp
      · rw [hih.2, hp.2.2.2.2.2.2.2.2.2, hf.2.2.2.2.2.2.2.2.2]

/-- The file-processed handler never issues a submission. -/
lemma ofp_submissions (s : State) (j : Nat) (t p : String) :
    (on_file_processed s j t p).submissions = s.submissions := by
  unfold on_file_processed
  split
  · rfl
  · split <;> rfl

/-- The result callback never issues a submission. -/
lemma cb_submissions (s : State) (p t : String) :
    (ocr_result_callback s p t).submissions = s.submissions := by
  unfold ocr_result_callback
  split
  · split
    · exact ofp_submissions s _ t p
    · rfl
  · split <;> rfl

/-- The queue driver issues at most one submission per entry. -/
lemma pnf_sub_le (s : State) :
    (process_next_file s).submissions.length ≤ s.submissions.length + 1 := by
  rcases hq : s.task_queue with _ | ⟨i, rest⟩
  · rw [pnf_nil s hq, (obc_fields s).1]
    omega
  · rw [(pnf_fields_cons s i rest hq).1]
    simp

/-- A timer expiry issues at most one submission. -/
lemma timer_sub_le (s : State) :
    (timer_fire s).submissions.length ≤ s.submissions.length + 1 := by
  by_cases hap : s.after_pending = true
  · rw [timer_fires s hap]
    have := pnf_sub_le { s with after_pending := false }
    simpa using this
  · have : timer_fire s = s := by
      simp [timer_fire]
      intro h2
      exact absurd h2 hap
    rw [this]
    omega

/-- Each drain round (one completion callback, one timer expiry) issues
at most one submission: after k delivered completions the run has grown
by at most k submissions. -/
lemma drain_sub_le (rs : List (String × String)) : ∀ s : State,
    (drain rs s).submissions.length ≤ s.submissions.length + rs.length := by
  induction rs with
  | nil => intro s; simp [drain]
  | cons r rs2 ih =>
    intro s
    have h1 : (drain (r :: rs2) s) =
        drain rs2 (timer_fire (ocr_result_callback s r.1 r.2)) := rfl
    rw [h1]
    have h2 := ih (timer_fire (ocr_result_callback s r.1 r.2))
    have h3 := timer_sub_le (ocr_result_callback s r.1 r.2)
    rw [cb_submissions s r.1 r.2] at h3
    simp only [List.length_cons]
    omega

/-- Refusals of `start_batch_ocr` leave the state untouched: an empty
file list answers not-started, a stopped service answers unavailable. -/
lemma start_refusals (s : State) :
    (s.file_list = [] → start_batch_ocr s = (s, StartResult.notStarted)) ∧
    (s.file_list ≠ [] → s.ocr_running = false →
      start_batch_ocr s = (s, StartResult.serviceUnavailable)) := by
  constructor
  · intro he
    simp [start_batch_ocr, he]
  · intro hne hr
    simp [start_batch_ocr, hne, hr]

/-- A successful start reports the started result. -/
lemma start_started (s : State) (hne : s.file_list ≠ []) (hr : s.ocr_running = true) :
    (start_batch_ocr s).2 = StartResult.started := by
  simp [start_batch_ocr, hne, hr]

/-- Field bookkeeping of a successful start on a non-empty rebuilt
queue: exactly one submission (the queue head) is issued. -/
lemma start_fields_cons (s : State) (hd : Nat) (tl : List Nat)
    (hne : s.file_list ≠ []) (hr : s.ocr_running = true)
    (hq : nonDoneIdx s.file_list = hd :: tl) :
    (start_batch_ocr s).1.submissions = s.submissions ++ [hd] ∧
    (start_batch_ocr s).1.task_queue = tl ∧
    (start_batch_ocr s).1.current_task = some hd ∧
    (start_batch_ocr s).1.current_batch_file = some hd ∧
    (start_batch_ocr s).1.is_batch_ocr = true ∧
    (start_batch_ocr s).1.after_pending = s.after_pending ∧
    (start_batch_ocr s).1.window_exists = s.window_exists ∧
    (start_batch_ocr s).1.file_list.length = s.file_list.length ∧
    (start_batch_ocr s).1.complete_events = s.complete_events := by
  simp [start_batch_ocr, hne, hr, hq, process_next_file]

/-- Field bookkeeping of a successful start on an empty rebuilt queue:
no submission, immediate batch completion. -/
lemma start_fields_nil (s : State)
    (hne : s.file_list ≠ []) (hr : s.ocr_running = true)
    (hq : nonDoneIdx s.file_list = []) :
    (start_batch_ocr s).1.submissions = s.submissions ∧
    (start_batch_ocr s).1.complete_events = s.complete_events + 1 ∧
    (start_batch_ocr s).1.is_batch_ocr = false ∧
    (start_batch_ocr s).1.task_queue = [] ∧
    (start_batch_ocr s).1.file_list = s.file_list.map resetPending ∧
    (start_batch_ocr s).1.buttons_enabled = true := by
  simp [start_batch_ocr, hne, hr, hq, process_next_file, on_batch_complete]

/-- The rebuilt queue lists its positions in strictly increasing order,
which is the enqueue order of the file list. -/
lemma nonDoneIdx_pairwise (fl : List FileInfo) :
    (nonDoneIdx fl).Pairwise (· < ·) :=
  List.Pairwise.filter _ (List.pairwise_lt_range fl.length)

/-- A list of done files rebuilds an empty queue. -/
lemma nonDoneIdx_nil_of_all_done (fl : List FileInfo)
    (h : ∀ f ∈ fl, f.status = Status.done) : nonDoneIdx fl = [] := by
  rw [nonDoneIdx, List.filter_eq_nil_iff]
  intro a ha
  have halt : a < fl.length := List.mem_range.mp ha
  have hmem : fl[a] ∈ fl := List.getElem_mem halt
  simp [List.getElem?_eq_getElem halt, h _ hmem]

/-- A done file is never collected into the rebuilt queue. -/
lemma not_mem_nonDoneIdx_of_done (fl : List FileInfo) (i : Nat)
    (hi : i < fl.length) (hd : (fl[i]).status = Status.done) :
    i ∉ nonDoneIdx fl := by
  intro hmem
  have h2 := (mem_nonDoneIdx.mp hmem).2
  rw [getD_eq_getElem_of_lt hi] at h2
  exact h2 hd

/-- Routing of the result callback in batch mode when the batch window
is gone: only a history record is appended, then the application state
is reset. -/
lemma cb_closed (s : State) (p t : String)
    (hb : s.is_batch_ocr = true) (hcbf : s.current_batch_file.isSome)
    (hw : s.window_exists = false) :
    ocr_result_callback s p t = reset_app_state
      { s with history :=
          s.history ++ [⟨p, t, HistTag.batch_window_closed⟩] } := by
  simp [ocr_result_callback, hb, hcbf, hw]

/-- Outside batch routing the callback appends exactly one ordinary
history record and touches nothing the batch logic reads. -/
lemma cb_nonbatch (s : State) (p t : String)
    (hnb : ¬ (s.is_batch_ocr = true ∧ s.current_batch_file.isSome)) :
    (ocr_result_callback s p t).history.length = s.history.length + 1 ∧
    (ocr_result_callback s p t).file_list = s.file_list ∧
    (ocr_result_callback s p t).task_queue = s.task_queue ∧
    (ocr_result_callback s p t).current_task = s.current_task ∧
    (ocr_result_callback s p t).submissions = s.submissions ∧
    (ocr_result_callback s p t).is_batch_ocr = s.is_batch_ocr ∧
    (ocr_result_callback s p t).after_pending = s.after_pending ∧
    (ocr_result_callback s p t).window_exists = s.window_exists := by
  unfold ocr_result_callback
  rw [if_neg hnb]
  split <;> simp

/-- With work outstanding, answering no to the confirmation dialog
leaves everything untouched. -/
lemma close_unconfirmed (s : State)
    (h : s.current_task ≠ none ∨ s.task_queue ≠ []) :
    close_window s false = s := by
  unfold close_window
  rw [if_pos ⟨h, rfl⟩]

/-- Field bookkeeping of a (confirmed or unneeded-confirmation) close. -/
lemma close_confirmed_fields (s : State) :
    (close_window s true).after_pending = false ∧
    (close_window s true).current_task = none ∧
    (close_window s true).task_queue = [] ∧
    (close_window s true).is_batch_ocr = false ∧
    (close_window s true).current_batch_file = none ∧
    (close_window s true).window_exists = false ∧
    (close_window s true).submissions = s.submissions ∧
    (close_window s true).history = s.history ∧
    (close_window s true).file_list = s.file_list := by
  unfold close_window
  rw [if_neg (by simp)]
  simp

/-- Once the window is gone and no timer is pending, no event can ever
issue another submission, re-open the window, re-arm the timer, or
touch the queue and current-task slot. -/
lemma step_closed (s : State) (e : Event)
    (hw : s.window_exists = false) (hap : s.after_pending = false) :
    (step s e).submissions = s.submissions ∧
    (step s e).window_exists = false ∧
    (step s e).after_pending = false ∧
    (step s e).task_queue = s.task_queue ∧
    (step s e).current_task = s.current_task := by
  cases e with
  | addFile p =>
    have : step s (Event.addFile p) = s := by simp [step, hw]
    rw [this]; exact ⟨rfl, hw, hap, rfl, rfl⟩
  | startBatch =>
    have : step s Event.startBatch = s := by
      simp only [step]
      rw [if_neg (by simp [hw])]
    rw [this]; exact ⟨rfl, hw, hap, rfl, rfl⟩
  | clearFiles =>
    have : step s Event.clearFiles = s := by
      simp only [step]
      rw [if_neg (by simp [hw])]
    rw [this]; exact ⟨rfl, hw, hap, rfl, rfl⟩
  | timerFire =>
    have : step s Event.timerFire = s := by
      simp [step, timer_fire, hap]
    rw [this]; exact ⟨rfl, hw, hap, rfl, rfl⟩
  | ocrResult p t =>
    have hstep : step s (Event.ocrResult p t) = ocr_result_callback s p t := rfl
    rw [hstep]
    by_cases hb : s.is_batch_ocr = true ∧ s.current_batch_file.isSome
    · rw [cb_closed s p t hb.1 hb.2 hw]
      exact ⟨rfl, hw, hap, rfl, rfl⟩
    · have h2 := cb_nonbatch s p t hb
      exact ⟨h2.2.2.2.2.1, by rw [h2.2.2.2.2.2.2.2]; exact hw,
        by rw [h2.2.2.2.2.2.2.1]; exact hap, h2.2.2.1, h2.2.2.2.1⟩
  | closeWindow c =>
    have : step s (Event.closeWindow c) = s := by simp [step, hw]
    rw [this]; exact ⟨rfl, hw, hap, rfl, rfl⟩
  | mainReset =>
    exact ⟨rfl, hw, hap, rfl, rfl⟩

/-- Closure of `step_closed` over arbitrary event sequences. -/
lemma runEvents_closed (evs : List Event) : ∀ s : State,
    s.window_exists = false → s.after_pending = false →
    (runEvents s evs).submissions = s.submissions ∧
    (runEvents s evs).task_queue = s.task_queue ∧
    (runEvents s evs).current_task = s.current_task := by
  induction evs with
  | nil => intro s hw hap; exact ⟨rfl, rfl, rfl⟩
  | cons e evs2 ih =>
    intro s hw hap
    have h1 := step_closed s e hw hap
    have h2 := ih (step s e) h1.2.1 h1.2.2.1
    refine ⟨?_, ?_, ?_⟩
    · rw [runEvents, List.foldl_cons]
      rw [show (List.foldl step (step s e) evs2) = runEvents (step s e) evs2 from rfl]
      rw [h2.1, h1.1]
    · rw [runEvents, List.foldl_cons]
      rw [show (List.foldl step (step s e) evs2) = runEvents (step s e) evs2 from rfl]
      rw [h2.2.1, h1.2.2.2.1]
    · rw [runEvents, List.foldl_cons]
      rw [show (List.foldl step (step s e) evs2) = runEvents (step s e) evs2 from rfl]
      rw [h2.2.2, h1.2.2.2.2]

/-- Display bookkeeping of `on_file_processed` on an in-range file: the
aggregate progress is recomputed from the updated statuses with the
divisor being the (positive) file-list length. -/
lemma ofp_display (s : State) (j : Nat) (t p : String)
    (hw : s.window_exists = true) (hj : j < s.file_list.length) :
    (on_file_processed s j t p).file_list = s.file_list.set j
      { s.file_list[j] with
          status := Status.done
          progress := "100%"
          result := some t
          image_path := some p } ∧
    (on_file_processed s j t p).displayed_completed =
      countDone ((on_file_processed s j t p).file_list) ∧
    (on_file_processed s j t p).displayed_total = s.file_list.length ∧
    (on_file_processed s j t p).displayed_percent =
      pyPercent (countDone ((on_file_processed s j t p).file_list))
        s.file_list.length ∧
    (on_file_processed s j t p).bar_value =
      (on_file_processed s j t p).displayed_percent := by
  have hwf : ¬ s.window_exists = false := by simp [hw]
  simp [on_file_processed, hwf, hj]

/-- The except branch of `on_file_processed` (membership lookup failed)
performs no display update and no division. -/
lemma ofp_out_of_range (s : State) (j : Nat) (t p : String)
    (hw : s.window_exists = true) (hj : ¬ j < s.file_list.length) :
    on_file_processed s j t p =
      { s with current_task := none, after_pending := true } := by
  have hwf : ¬ s.window_exists = false := by simp [hw]
  simp [on_file_processed, hwf, hj]

/-- With the window gone the handler returns immediately. -/
lemma ofp_window_gone (s : State) (j : Nat) (t p : String)
    (hw : s.window_exists = false) :
    on_file_processed s j t p = s := by
  simp [on_file_processed, hw]

/-- Setting any entry to a done descriptor cannot decrease the done
count. -/
lemma countDone_le_set_done (fl : List FileInfo) (x : FileInfo)
    (hx : x.status = Status.done) : ∀ i : Nat,
    countDone fl ≤ countDone (fl.set i x) := by
  induction fl with
  | nil => intro i; simp
  | cons a t ih =>
    intro i
    cases i with
    | zero =>
      show countDone (a :: t) ≤ countDone (x :: t)
      have h1 : countDone (a :: t) =
          countDone t + (if a.status == Status.done then 1 else 0) := by
        simp [countDone, List.countP_cons]
      have h2 : countDone (x :: t) = countDone t + 1 := by
        simp [countDone, List.countP_cons, hx]
      rw [h1, h2]
      refine Nat.add_le_add_left ?_ _
      split <;> omega
    | succ k =>
      show countDone (a :: t.set k x) ≥ countDone (a :: t)
      have h1 : countDone (a :: t) =
          countDone t + (if a.status == Status.done then 1 else 0) := by
        simp [countDone, List.countP_cons]
      have h2 : countDone (a :: t.set k x) =
          countDone (t.set k x) + (if a.status == Status.done then 1 else 0) := by
        simp [countDone, List.countP_cons]
      rw [h1, h2]
      exact Nat.add_le_add_right (ih k) _

/-- The queue driver never touches the progress display. -/
lemma pnf_displayed (s : State) :
    (process_next_file s).displayed_percent = s.displayed_percent ∧
    (process_next_file s).displayed_total = s.displayed_total ∧
    (process_next_file s).displayed_completed = s.displayed_completed := by
  rcases hq : s.task_queue with _ | ⟨i, rest⟩
  · rw [pnf_nil s hq]
    simp [on_batch_complete]
  · simp [process_next_file, hq]

/-- A successful start publishes the guarded percentage computed from
the rebuilt queue. -/
lemma start_displayed (s : State)
    (hne : s.file_list ≠ []) (hr : s.ocr_running = true) :
    (start_batch_ocr s).1.displayed_percent =
      percentGuarded (s.file_list.length - (nonDoneIdx s.file_list).length)
        s.file_list.length := by
  have h1 : (start_batch_ocr s).1 = process_next_file
      { s with buttons_enabled := false
               task_queue := nonDoneIdx s.file_list
               file_list := s.file_list.map resetPending
               bar_value := 0
               displayed_completed :=
                 (s.file_list.map resetPending).length -
                   (nonDoneIdx s.file_list).length
               displayed_total := (s.file_list.map resetPending).length
               displayed_percent := percentGuarded
                 ((s.file_list.map resetPending).length -
                   (nonDoneIdx s.file_list).length)
                 (s.file_list.map resetPending).length } := by
    simp [start_batch_ocr, hne, hr]
  rw [h1, (pnf_displayed _).1]
  simp

/-- One enqueue keeps the source paths duplicate free. -/
lemma add_preserves_nodup (s : State) (p : String)
    (hnd : (s.file_list.map FileInfo.path).Nodup) :
    ((add_single_file s p).1.file_list.map FileInfo.path).Nodup := by
  by_cases hdup : p ∈ s.file_list.map FileInfo.path
  · have : (add_single_file s p).1 = s := by simp [add_single_file, hdup]
    rw [this]; exact hnd
  · have hstate : (add_single_file s p).1.file_list = s.file_list ++
        [⟨p, basename p, Status.pending, "0%", none, none⟩] := by
      simp [add_single_file, hdup, update_progress_display]
    rw [hstate]
    rw [List.map_append]
    simp [List.nodup_append, hnd, hdup]

/-- Specification of the fuel-driven logarithm: enough fuel brackets a
positive number between consecutive powers of two. -/
lemma log2fuel_spec : ∀ (fuel n : Nat), 1 ≤ n → n ≤ fuel →
    2 ^ log2fuel fuel n ≤ n ∧ n < 2 ^ (log2fuel fuel n + 1) := by
  intro fuel
  induction fuel with
  | zero => intro n h1 h2; omega
  | succ f ih =>
    intro n h1 h2
    by_cases hn : n ≤ 1
    · have he : n = 1 := by omega
      subst he
      simp [log2fuel]
    · have hrec : log2fuel (f + 1) n = log2fuel f (n / 2) + 1 := by
        simp [log2fuel, hn]
      have hd1 : 1 ≤ n / 2 := by omega
      have hd2 : n / 2 ≤ f := by omega
      have hih := ih (n / 2) hd1 hd2
      rw [hrec]
      have e1 : 2 ^ (log2fuel f (n / 2) + 1) = 2 ^ log2fuel f (n / 2) * 2 :=
        pow_succ 2 _
      have e2 : 2 ^ (log2fuel f (n / 2) + 1 + 1) =
          2 ^ log2fuel f (n / 2) * 2 * 2 := by
        rw [pow_succ, e1]
      have ha := hih.1
      have hb := hih.2
      rw [e1] at hb
      constructor
      · rw [e1]; omega
      · rw [e2]; omega

/-- Bracketing property of `natLog2`. -/
lemma natLog2_spec (n : Nat) (h : 1 ≤ n) :
    2 ^ natLog2 n ≤ n ∧ n < 2 ^ (natLog2 n + 1) :=
  log2fuel_spec n n h (le_refl n)

/-- Unfolded shape of the half-even rounding. -/
lemma hre_eq (num den : Nat) :
    hre num den = if 2 * (num % den) < den then num / den
      else if den < 2 * (num % den) then num / den + 1
      else if num / den % 2 = 0 then num / den else num / den + 1 := rfl

/-- Half-even rounding stays within half a unit of the fraction, and a
result exactly half a unit away is even (the tie-break). -/
lemma hre_bounds (num den : Nat) (hd : 0 < den) :
    (num : ℚ) / den ≤ hre num den + 1 / 2 ∧
    (hre num den : ℚ) ≤ (num : ℚ) / den + 1 / 2 ∧
    ((num : ℚ) / den = hre num den + 1 / 2 → hre num den % 2 = 0) ∧
    ((hre num den : ℚ) = (num : ℚ) / den + 1 / 2 → hre num den % 2 = 0) := by
  have hmod := Nat.div_add_mod num den
  have hr : num % den < den := Nat.mod_lt _ hd
  have hdq : (0 : ℚ) < (den : ℚ) := by exact_mod_cast hd
  have hx : (num : ℚ) / den = (num / den : Nat) + (num % den : Nat) / den := by
    have hq : (num : ℚ) = (den : ℚ) * (num / den : Nat) + (num % den : Nat) := by
      exact_mod_cast hmod.symm
    rw [hq, add_div, mul_div_cancel_left₀ _ (ne_of_gt hdq)]
  have hlow : ((num / den : Nat) : ℚ) ≤ (num : ℚ) / den := by
    rw [hx]
    have : (0 : ℚ) ≤ (num % den : Nat) / den := by positivity
    linarith
  have hfrac1 : ((num % den : Nat) : ℚ) / den < 1 := by
    rw [div_lt_one hdq]
    exact_mod_cast hr
  rw [hre_eq]
  by_cases hc1 : 2 * (num % den) < den
  · rw [if_pos hc1]
    have hhalf : ((num % den : Nat) : ℚ) / den < 1 / 2 := by
      rw [div_lt_div_iff hdq (by norm_num)]
      exact_mod_cast by omega
    refine ⟨by rw [hx]; linarith, by linarith, ?_, ?_⟩
    · intro heq
      rw [hx] at heq
      have : ((num % den : Nat) : ℚ) / den = 1 / 2 := by linarith
      linarith
    · intro heq
      have : (num : ℚ) / den = (num / den : Nat) - 1 / 2 := by linarith
      linarith
  · rw [if_neg hc1]
    by_cases hc2 : den < 2 * (num % den)
    · rw [if_pos hc2]
      have hhalf : (1 : ℚ) / 2 ≤ ((num % den : Nat) : ℚ) / den := by
        rw [div_le_div_iff (by norm_num) hdq]
        exact_mod_cast by omega
      push_cast
      refine ⟨by rw [hx]; push_cast; linarith, by rw [hx]; push_cast; linarith,
        ?_, ?_⟩
      · intro heq
        rw [hx] at heq
        push_cast at heq
        linarith
      · intro heq
        rw [hx] at heq
        push_cast at heq
        have h2 : ((num % den : Nat) : ℚ) / den = 1 / 2 := by linarith
        rw [div_eq_div_iff (ne_of_gt hdq) (by norm_num : (2 : ℚ) ≠ 0)] at h2
        have h3 : (num % den) * 2 = 1 * den := by exact_mod_cast h2
        omega
    · rw [if_neg hc2]
      have htie : 2 * (num % den) = den := by omega
      have hhalf : ((num % den : Nat) : ℚ) / den = 1 / 2 := by
        rw [div_eq_div_iff (ne_of_gt hdq) (by norm_num : (2 : ℚ) ≠ 0)]
        have h3 : (num % den) * 2 = 1 * den := by omega
        exact_mod_cast h3
      have hx2 : (num : ℚ) / den = (num / den : Nat) + 1 / 2 := by
        rw [hx, hhalf]
      by_cases hpar : num / den % 2 = 0
      · rw [if_pos hpar]
        refine ⟨by rw [hx2], by rw [hx2]; linarith, fun _ => hpar, ?_⟩
        · intro heq
          rw [hx2] at heq
          linarith
      · rw [if_neg hpar]
        have heven : (num / den + 1) % 2 = 0 := by omega
        push_cast
        refine ⟨by rw [hx2]; push_cast; linarith,
          by rw [hx2]; push_cast; linarith, fun _ => heven, fun _ => heven⟩

/-- Half-even rounding is monotone in the value of the fraction. -/
lemma hre_mono (n1 d1 n2 d2 : Nat) (h1 : 0 < d1) (h2 : 0 < d2)
    (h : (n1 : ℚ) / d1 ≤ (n2 : ℚ) / d2) : hre n1 d1 ≤ hre n2 d2 := by
  by_contra hlt
  push_neg at hlt
  have hb1 := hre_bounds n1 d1 h1
  have hb2 := hre_bounds n2 d2 h2
  have hs : (hre n2 d2 : ℚ) + 1 ≤ hre n1 d1 := by exact_mod_cast hlt
  have e1 : (hre n1 d1 : ℚ) = (n1 : ℚ) / d1 + 1 / 2 := by
    linarith [hb1.2.1, hb2.1]
  have e2 : (n2 : ℚ) / d2 = (hre n2 d2 : ℚ) + 1 / 2 := by
    linarith [hb1.2.1, hb2.1]
  have p1 := hb1.2.2.2 e1
  have p2 := hb2.2.2.1 e2
  have hsn : hre n1 d1 = hre n2 d2 + 1 := by
    have : (hre n1 d1 : ℚ) = (hre n2 d2 : ℚ) + 1 := by linarith
    exact_mod_cast this
  omega

/-- Bracketing of a positive rational by the powers of two computed by
`qlog2`. -/
lemma qlog2_spec (m n : Nat) (hm : 0 < m) (hn : 0 < n) :
    (2 : ℚ) ^ qlog2 m n ≤ (m : ℚ) / n ∧
    (m : ℚ) / n < (2 : ℚ) ^ (qlog2 m n + 1) := by
  have ha := natLog2_spec m hm
  have hb := natLog2_spec n hn
  have hnq : (0 : ℚ) < (n : ℚ) := by exact_mod_cast hn
  have hcast : ∀ k : Nat, (2 : ℚ) ^ ((k : Nat) : Int) = ((2 ^ k : Nat) : ℚ) := by
    intro k
    rw [zpow_natCast]
    push_cast
    ring
  unfold qlog2
  by_cases hc : n * 2 ^ natLog2 m ≤ m * 2 ^ natLog2 n
  · rw [if_pos hc]
    constructor
    · rw [zpow_sub₀ (by norm_num : (2 : ℚ) ≠ 0), hcast, hcast,
        div_le_div_iff (by positivity) hnq]
      have hc2 : 2 ^ natLog2 m * n ≤ m * 2 ^ natLog2 n := by
        rw [Nat.mul_comm]
        exact hc
      exact_mod_cast hc2
    · rw [show (natLog2 m : Int) - natLog2 n + 1 =
          ((natLog2 m + 1 : Nat) : Int) - ((natLog2 n : Nat) : Int) by
            push_cast; ring]
      rw [zpow_sub₀ (by norm_num : (2 : ℚ) ≠ 0), hcast, hcast,
        div_lt_div_iff hnq (by positivity)]
      have hnat : m * 2 ^ natLog2 n < 2 ^ (natLog2 m + 1) * n := by
        calc m * 2 ^ natLog2 n < 2 ^ (natLog2 m + 1) * 2 ^ natLog2 n :=
              mul_lt_mul_of_pos_right ha.2 (Nat.pos_pow_of_pos _ (by norm_num))
          _ ≤ 2 ^ (natLog2 m + 1) * n := Nat.mul_le_mul_left _ hb.1
      exact_mod_cast hnat
  · rw [if_neg hc]
    push_neg at hc
    constructor
    · rw [show (natLog2 m : Int) - natLog2 n - 1 =
          ((natLog2 m : Nat) : Int) - ((natLog2 n + 1 : Nat) : Int) by
            push_cast; ring]
      rw [zpow_sub₀ (by norm_num : (2 : ℚ) ≠ 0), hcast, hcast,
        div_le_div_iff (by positivity) hnq]
      have hnat : 2 ^ natLog2 m * n ≤ m * 2 ^ (natLog2 n + 1) := by
        calc 2 ^ natLog2 m * n ≤ m * n := Nat.mul_le_mul_right n ha.1
          _ ≤ m * 2 ^ (natLog2 n + 1) := Nat.mul_le_mul_left m (le_of_lt hb.2)
      exact_mod_cast hnat
    · rw [show (natLog2 m : Int) - natLog2 n - 1 + 1 =
          ((natLog2 m : Nat) : Int) - ((natLog2 n : Nat) : Int) by push_cast; ring]
      rw [zpow_sub₀ (by norm_num : (2 : ℚ) ≠ 0), hcast, hcast,
        div_lt_div_iff hnq (by positivity)]
      have h3 : m * 2 ^ natLog2 n < 2 ^ natLog2 m * n := by
        rw [Nat.mul_comm (2 ^ natLog2 m) n]
        exact hc
      exact_mod_cast h3

/-- The scaled fraction used by `pyPercent` is the input value divided
by two to the exponent, with a positive denominator. -/
lemma scale_eq (m n : Nat) (e : Int) (hn : 0 < n) :
    0 < (if 0 ≤ e then n * 2 ^ e.toNat else n) ∧
    (((if 0 ≤ e then m else m * 2 ^ (-e).toNat : Nat)) : ℚ) /
      ((if 0 ≤ e then n * 2 ^ e.toNat else n : Nat) : ℚ) =
      ((m : ℚ) / n) * (2 : ℚ) ^ (-e) := by
  by_cases he : 0 ≤ e
  · simp only [if_pos he]
    refine ⟨mul_pos hn (Nat.pos_pow_of_pos _ (by norm_num)), ?_⟩
    have he2 : (2 : ℚ) ^ e = 2 ^ e.toNat := by
      rw [← zpow_natCast (2 : ℚ) e.toNat, Int.toNat_of_nonneg he]
    rw [zpow_neg, he2]
    push_cast
    rw [division_def, division_def, mul_inv]
    ring
  · simp only [if_neg he]
    push_neg at he
    refine ⟨hn, ?_⟩
    have he2 : (2 : ℚ) ^ (-e) = 2 ^ (-e).toNat := by
      rw [← zpow_natCast (2 : ℚ) (-e).toNat,
        Int.toNat_of_nonneg (by omega : (0 : Int) ≤ -e)]
    rw [he2]
    push_cast
    ring

/-- A fraction at least `2 ^ 52` rounds to a significand of at least
`2 ^ 52`. -/
lemma sig_lower (n d : Nat) (hd : 0 < d)
    (hxl : ((2 ^ 52 : Nat) : ℚ) ≤ (n : ℚ) / d) : 2 ^ 52 ≤ hre n d := by
  by_contra hlt
  push_neg at hlt
  have hb := (hre_bounds n d hd).1
  have hc : (hre n d : ℚ) ≤ ((2 ^ 52 : Nat) : ℚ) - 1 := by
    have h2 : hre n d ≤ 2 ^ 52 - 1 := by omega
    have h3 : ((hre n d : Nat) : ℚ) ≤ ((2 ^ 52 - 1 : Nat) : ℚ) := by
      exact_mod_cast h2
    have h4 : ((2 ^ 52 - 1 : Nat) : ℚ) = ((2 ^ 52 : Nat) : ℚ) - 1 := by
      have : (1 : Nat) ≤ 2 ^ 52 := Nat.one_le_two_pow
      push_cast [this]
      ring
    linarith [h3, le_of_eq h4]
  push_cast at hxl hc
  linarith

/-- A fraction below `2 ^ 53` rounds to a significand of at most
`2 ^ 53`. -/
lemma sig_upper (n d : Nat) (hd : 0 < d)
    (hxu : (n : ℚ) / d < ((2 ^ 53 : Nat) : ℚ)) : hre n d ≤ 2 ^ 53 := by
  by_contra hlt
  push_neg at hlt
  have hb := (hre_bounds n d hd).2.1
  have hc : ((2 ^ 53 : Nat) : ℚ) + 1 ≤ (hre n d : ℚ) := by
    have h2 : 2 ^ 53 + 1 ≤ hre n d := by omega
    exact_mod_cast h2
  push_cast at hxu hc
  linarith

/-- Monotonicity of one 53-bit round-to-nearest-even step: rounding a
smaller positive value (presented with its power-of-two bracket and its
scaled significand fraction) yields a smaller rounded value. -/
lemma rnd53_mono (q1 q2 : ℚ) (z1 z2 : Int) (n1 d1 n2 d2 : Nat)
    (hq1 : 0 < q1) (h12 : q1 ≤ q2)
    (hd1 : 0 < d1) (hd2 : 0 < d2)
    (hz1l : (2 : ℚ) ^ z1 ≤ q1) (hz1u : q1 < (2 : ℚ) ^ (z1 + 1))
    (hz2l : (2 : ℚ) ^ z2 ≤ q2) (hz2u : q2 < (2 : ℚ) ^ (z2 + 1))
    (hx1 : (n1 : ℚ) / d1 = q1 * (2 : ℚ) ^ (52 - z1))
    (hx2 : (n2 : ℚ) / d2 = q2 * (2 : ℚ) ^ (52 - z2)) :
    (hre n1 d1 : ℚ) * (2 : ℚ) ^ (z1 - 52) ≤
      (hre n2 d2 : ℚ) * (2 : ℚ) ^ (z2 - 52) := by
  have hzmono : z1 ≤ z2 := by
    by_contra hlt
    push_neg at hlt
    have h1 : (2 : ℚ) ^ (z2 + 1) ≤ (2 : ℚ) ^ z1 :=
      zpow_le_zpow_right₀ (by norm_num) (by omega)
    linarith
  by_cases hz : z1 = z2
  · subst hz
    have hxx : (n1 : ℚ) / d1 ≤ (n2 : ℚ) / d2 := by
      rw [hx1, hx2]
      have hp : (0 : ℚ) < (2 : ℚ) ^ (52 - z1) := by positivity
      exact mul_le_mul_of_nonneg_right h12 (le_of_lt hp)
    have hs : (hre n1 d1 : ℚ) ≤ (hre n2 d2 : ℚ) := by
      exact_mod_cast hre_mono n1 d1 n2 d2 hd1 hd2 hxx
    have hp : (0 : ℚ) < (2 : ℚ) ^ (z1 - 52) := by positivity
    exact mul_le_mul_of_nonneg_right hs (le_of_lt hp)
  · have hzlt : z1 < z2 := lt_of_le_of_ne hzmono hz
    have c52 : ((2 ^ 52 : Nat) : ℚ) = (2 : ℚ) ^ ((52 : Nat) : Int) := by
      rw [zpow_natCast]
      push_cast
      ring
    have c53 : ((2 ^ 53 : Nat) : ℚ) = (2 : ℚ) ^ ((53 : Nat) : Int) := by
      rw [zpow_natCast]
      push_cast
      ring
    have hx1u : (n1 : ℚ) / d1 < ((2 ^ 53 : Nat) : ℚ) := by
      rw [hx1, c53]
      have hp : (0 : ℚ) < (2 : ℚ) ^ (52 - z1) := by positivity
      calc q1 * (2 : ℚ) ^ (52 - z1) < (2 : ℚ) ^ (z1 + 1) * (2 : ℚ) ^ (52 - z1) :=
            mul_lt_mul_of_pos_right hz1u hp
        _ = (2 : ℚ) ^ (z1 + 1 + (52 - z1)) :=
            (zpow_add₀ (by norm_num : (2 : ℚ) ≠ 0) _ _).symm
        _ = (2 : ℚ) ^ ((53 : Nat) : Int) := by
            have he : z1 + 1 + (52 - z1) = ((53 : Nat) : Int) := by
              push_cast
              ring
            rw [he]
    have hx2l : ((2 ^ 52 : Nat) : ℚ) ≤ (n2 : ℚ) / d2 := by
      rw [hx2, c52]
      have hp : (0 : ℚ) < (2 : ℚ) ^ (52 - z2) := by positivity
      calc (2 : ℚ) ^ ((52 : Nat) : Int) = (2 : ℚ) ^ (z2 + (52 - z2)) := by
            have he : z2 + (52 - z2) = ((52 : Nat) : Int) := by
              push_cast
              ring
            rw [he]
        _ = (2 : ℚ) ^ z2 * (2 : ℚ) ^ (52 - z2) :=
            zpow_add₀ (by norm_num : (2 : ℚ) ≠ 0) _ _
        _ ≤ q2 * (2 : ℚ) ^ (52 - z2) :=
            mul_le_mul_of_nonneg_right hz2l (le_of_lt hp)
    have hs1 : hre n1 d1 ≤ 2 ^ 53 := sig_upper n1 d1 hd1 hx1u
    have hs2 : 2 ^ 52 ≤ hre n2 d2 := sig_lower n2 d2 hd2 hx2l
    have hs1q : (hre n1 d1 : ℚ) ≤ ((2 ^ 53 : Nat) : ℚ) := by exact_mod_cast hs1
    have hs2q : ((2 ^ 52 : Nat) : ℚ) ≤ (hre n2 d2 : ℚ) := by exact_mod_cast hs2
    have hp1 : (0 : ℚ) < (2 : ℚ) ^ (z1 - 52) := by positivity
    have hp2 : (0 : ℚ) < (2 : ℚ) ^ (z2 - 52) := by positivity
    calc (hre n1 d1 : ℚ) * (2 : ℚ) ^ (z1 - 52)
        ≤ ((2 ^ 53 : Nat) : ℚ) * (2 : ℚ) ^ (z1 - 52) :=
          mul_le_mul_of_nonneg_right hs1q (le_of_lt hp1)
      _ = (2 : ℚ) ^ ((53 : Nat) : Int) * (2 : ℚ) ^ (z1 - 52) := by rw [c53]
      _ = (2 : ℚ) ^ (((53 : Nat) : Int) + (z1 - 52)) :=
          (zpow_add₀ (by norm_num : (2 : ℚ) ≠ 0) _ _).symm
      _ = (2 : ℚ) ^ (z1 + 1) := by
          have he : ((53 : Nat) : Int) + (z1 - 52) = z1 + 1 := by
            push_cast
            ring
          rw [he]
      _ ≤ (2 : ℚ) ^ z2 := zpow_le_zpow_right₀ (by norm_num) (by omega)
      _ = (2 : ℚ) ^ (((52 : Nat) : Int) + (z2 - 52)) := by
          have he : z2 = ((52 : Nat) : Int) + (z2 - 52) := by
            push_cast
            ring
          rw [← he]
      _ = (2 : ℚ) ^ ((52 : Nat) : Int) * (2 : ℚ) ^ (z2 - 52) :=
          zpow_add₀ (by norm_num : (2 : ℚ) ≠ 0) _ _
      _ = ((2 ^ 52 : Nat) : ℚ) * (2 : ℚ) ^ (z2 - 52) := by rw [c52]
      _ ≤ (hre n2 d2 : ℚ) * (2 : ℚ) ^ (z2 - 52) :=
          mul_le_mul_of_nonneg_right hs2q (le_of_lt hp2)

/-- The dyadic floor brackets the dyadic value. -/
lemma dyadicFloor_bounds (s : Nat) (e : Int) :
    (dyadicFloor s e : ℚ) ≤ (s : ℚ) * (2 : ℚ) ^ e ∧
    (s : ℚ) * (2 : ℚ) ^ e < dyadicFloor s e + 1 := by
  unfold dyadicFloor
  by_cases he : 0 ≤ e
  · rw [if_pos he]
    have hcast : ((s * 2 ^ e.toNat : Nat) : ℚ) = (s : ℚ) * (2 : ℚ) ^ e := by
      have he2 : (2 : ℚ) ^ e = 2 ^ e.toNat := by
        rw [← zpow_natCast (2 : ℚ) e.toNat, Int.toNat_of_nonneg he]
      rw [he2]
      push_cast
      ring
    exact ⟨le_of_eq hcast, by rw [hcast]; linarith⟩
  · rw [if_neg he]
    push_neg at he
    have hpos : 0 < 2 ^ (-e).toNat := Nat.pos_pow_of_pos _ (by norm_num)
    have hposq : (0 : ℚ) < ((2 ^ (-e).toNat : Nat) : ℚ) := by exact_mod_cast hpos
    have he2 : (2 : ℚ) ^ e = (((2 ^ (-e).toNat : Nat) : ℚ))⁻¹ := by
      have hee : e = -(((-e).toNat : Nat) : Int) := by omega
      conv_lhs => rw [hee]
      rw [zpow_neg, zpow_natCast]
      push_cast
      norm_num
    have hval : (s : ℚ) * (2 : ℚ) ^ e =
        (s : ℚ) / ((2 ^ (-e).toNat : Nat) : ℚ) := by
      rw [he2]
      ring
    rw [hval]
    constructor
    · rw [le_div_iff₀ hposq]
      have hnat : s / 2 ^ (-e).toNat * 2 ^ (-e).toNat ≤ s :=
        Nat.div_mul_le_self s _
      exact_mod_cast hnat
    · rw [div_lt_iff₀ hposq]
      have hnat : s < (s / 2 ^ (-e).toNat + 1) * 2 ^ (-e).toNat :=
        (Nat.div_lt_iff_lt_mul hpos).mp (Nat.lt_succ_self _)
      exact_mod_cast hnat

/-- Projection of the rounding exponent. -/
lemma rnd53pair_snd (m n : Nat) : (rnd53pair m n).2 = qlog2 m n - 52 := rfl

/-- The first projection of `rnd53pair`, spelled out. -/
lemma rnd53pair_fst (m n : Nat) : (rnd53pair m n).1 =
    hre (if 0 ≤ qlog2 m n - 52 then m else m * 2 ^ (-(qlog2 m n - 52)).toNat)
      (if 0 ≤ qlog2 m n - 52 then n * 2 ^ (qlog2 m n - 52).toNat else n) := rfl

/-- Positivity and value of the scaled fraction fed to the half-even
rounding inside `rnd53pair`. -/
lemma rnd53pair_frac (m n : Nat) (hn : 0 < n) :
    0 < (if 0 ≤ qlog2 m n - 52 then n * 2 ^ (qlog2 m n - 52).toNat else n) ∧
    (((if 0 ≤ qlog2 m n - 52 then m else
        m * 2 ^ (-(qlog2 m n - 52)).toNat : Nat)) : ℚ) /
      ((if 0 ≤ qlog2 m n - 52 then n * 2 ^ (qlog2 m n - 52).toNat else n :
        Nat) : ℚ) =
      ((m : ℚ) / n) * (2 : ℚ) ^ (52 - qlog2 m n) := by
  have hsc := scale_eq m n (qlog2 m n - 52) hn
  have hexp : ((m : ℚ) / n) * (2 : ℚ) ^ (-(qlog2 m n - 52)) =
      ((m : ℚ) / n) * (2 : ℚ) ^ (52 - qlog2 m n) := by
    rw [neg_sub]
  exact ⟨hsc.1, hsc.2.trans hexp⟩

/-- The significand produced for a positive fraction is at least
`2 ^ 52`. -/
lemma rnd53pair_lower (m n : Nat) (hm : 0 < m) (hn : 0 < n) :
    2 ^ 52 ≤ (rnd53pair m n).1 := by
  have hq := qlog2_spec m n hm hn
  have hf := rnd53pair_frac m n hn
  rw [rnd53pair_fst]
  apply sig_lower _ _ hf.1
  rw [hf.2]
  have hp : (0 : ℚ) < (2 : ℚ) ^ (52 - qlog2 m n) := by positivity
  have c52 : ((2 ^ 52 : Nat) : ℚ) = (2 : ℚ) ^ ((52 : Nat) : Int) := by
    rw [zpow_natCast]
    push_cast
    ring
  rw [c52]
  calc (2 : ℚ) ^ ((52 : Nat) : Int)
      = (2 : ℚ) ^ (qlog2 m n + (52 - qlog2 m n)) := by
        have he : qlog2 m n + (52 - qlog2 m n) = ((52 : Nat) : Int) := by
          push_cast
          ring
        rw [he]
    _ = (2 : ℚ) ^ qlog2 m n * (2 : ℚ) ^ (52 - qlog2 m n) :=
        zpow_add₀ (by norm_num : (2 : ℚ) ≠ 0) _ _
    _ ≤ ((m : ℚ) / n) * (2 : ℚ) ^ (52 - qlog2 m n) :=
        mul_le_mul_of_nonneg_right hq.1 (le_of_lt hp)

/-- Monotonicity of one full binary64 rounding in the value of the
input fraction. -/
lemma rnd53val_mono (m1 n1 m2 n2 : Nat)
    (hm1 : 0 < m1) (hn1 : 0 < n1) (hn2 : 0 < n2)
    (h : (m1 : ℚ) / n1 ≤ (m2 : ℚ) / n2) :
    ((rnd53pair m1 n1).1 : ℚ) * (2 : ℚ) ^ (rnd53pair m1 n1).2 ≤
      ((rnd53pair m2 n2).1 : ℚ) * (2 : ℚ) ^ (rnd53pair m2 n2).2 := by
  have hq1 : (0 : ℚ) < (m1 : ℚ) / n1 := by
    have h1 : (0 : ℚ) < (m1 : ℚ) := by exact_mod_cast hm1
    have h2 : (0 : ℚ) < (n1 : ℚ) := by exact_mod_cast hn1
    positivity
  have hm2 : 0 < m2 := by
    by_contra hz
    push_neg at hz
    have hz2 : m2 = 0 := by omega
    rw [hz2] at h
    simp at h
    linarith
  have hs1 := qlog2_spec m1 n1 hm1 hn1
  have hs2 := qlog2_spec m2 n2 hm2 hn2
  have hf1 := rnd53pair_frac m1 n1 hn1
  have hf2 := rnd53pair_frac m2 n2 hn2
  rw [rnd53pair_fst, rnd53pair_fst, rnd53pair_snd, rnd53pair_snd]
  exact rnd53_mono ((m1 : ℚ) / n1) ((m2 : ℚ) / n2) (qlog2 m1 n1) (qlog2 m2 n2)
    _ _ _ _ hq1 h hf1.1 hf2.1 hs1.1 hs1.2 hs2.1 hs2.2 hf1.2 hf2.2

/-- Positivity and value of the exact fraction representing 100 times a
dyadic number. -/
lemma wfrac_eq (p : Nat × Int) :
    0 < wDen p ∧
    ((wNum p : Nat) : ℚ) / (wDen p : ℚ) = 100 * ((p.1 : ℚ) * (2 : ℚ) ^ p.2) := by
  unfold wNum wDen
  by_cases he : 0 ≤ p.2
  · rw [if_pos he, if_pos he]
    refine ⟨by norm_num, ?_⟩
    have he2 : (2 : ℚ) ^ p.2 = 2 ^ p.2.toNat := by
      rw [← zpow_natCast (2 : ℚ) p.2.toNat, Int.toNat_of_nonneg he]
    rw [he2]
    push_cast
    rw [div_one]
    ring
  · rw [if_neg he, if_neg he]
    push_neg at he
    have hpos : 0 < 2 ^ (-p.2).toNat := Nat.pos_pow_of_pos _ (by norm_num)
    refine ⟨hpos, ?_⟩
    have he2 : (2 : ℚ) ^ p.2 = (((2 ^ (-p.2).toNat : Nat) : ℚ))⁻¹ := by
      have hee : p.2 = -((((-p.2).toNat : Nat)) : Int) := by omega
      conv_lhs => rw [hee]
      rw [zpow_neg, zpow_natCast]
      push_cast
      norm_num
    rw [he2]
    push_cast
    rw [div_eq_mul_inv]
    ring

/-- Unfolded shape of `pyPercent` on positive inputs. -/
lemma pyPercent_eq (c t : Nat) (hc : 0 < c) (ht : 0 < t) :
    pyPercent c t = dyadicFloor
      (rnd53pair (wNum (rnd53pair c t)) (wDen (rnd53pair c t))).1
      (rnd53pair (wNum (rnd53pair c t)) (wDen (rnd53pair c t))).2 := by
  have hcond : ¬ (c = 0 ∨ t = 0) := by omega
  unfold pyPercent
  rw [if_neg hcond]

/-- A smaller dyadic value has a smaller dyadic floor. -/
lemma dyadicFloor_le_of_le (s1 : Nat) (e1 : Int) (s2 : Nat) (e2 : Int)
    (h : (s1 : ℚ) * (2 : ℚ) ^ e1 ≤ (s2 : ℚ) * (2 : ℚ) ^ e2) :
    dyadicFloor s1 e1 ≤ dyadicFloor s2 e2 := by
  have hb1 := dyadicFloor_bounds s1 e1
  have hb2 := dyadicFloor_bounds s2 e2
  have hq : (dyadicFloor s1 e1 : ℚ) < (dyadicFloor s2 e2 : ℚ) + 1 := by
    linarith
  have hn : dyadicFloor s1 e1 < dyadicFloor s2 e2 + 1 := by exact_mod_cast hq
  omega

/-- The displayed percentage is monotone in the completed count: the
binary64 division, the binary64 multiplication by 100 and the final
truncation are each monotone. -/
lemma pyPercent_mono (t : Nat) {c1 c2 : Nat} (h : c1 ≤ c2) :
    pyPercent c1 t ≤ pyPercent c2 t := by
  rcases Nat.eq_zero_or_pos t with ht | ht
  · subst ht
    simp [pyPercent]
  rcases Nat.eq_zero_or_pos c1 with hc1 | hc1
  · subst hc1
    simp [pyPercent]
  have hc2 : 0 < c2 := lt_of_lt_of_le hc1 h
  have hmono : (c1 : ℚ) / t ≤ (c2 : ℚ) / t := by
    have hcc : (c1 : ℚ) ≤ (c2 : ℚ) := by exact_mod_cast h
    gcongr
  have hy := rnd53val_mono c1 t c2 t hc1 ht ht hmono
  have hl1 := rnd53pair_lower c1 t hc1 ht
  have hw1 := wfrac_eq (rnd53pair c1 t)
  have hw2 := wfrac_eq (rnd53pair c2 t)
  have hwn1 : 0 < wNum (rnd53pair c1 t) := by
    have hpos : 0 < (rnd53pair c1 t).1 :=
      lt_of_lt_of_le (Nat.pos_pow_of_pos _ (by norm_num)) hl1
    unfold wNum
    split
    · exact Nat.mul_pos (Nat.mul_pos (by norm_num) hpos)
        (Nat.pos_pow_of_pos _ (by norm_num))
    · exact Nat.mul_pos (by norm_num) hpos
  have hineq : ((wNum (rnd53pair c1 t) : Nat) : ℚ) / (wDen (rnd53pair c1 t) : ℚ) ≤
      ((wNum (rnd53pair c2 t) : Nat) : ℚ) / (wDen (rnd53pair c2 t) : ℚ) := by
    rw [hw1.2, hw2.2]
    linarith [hy]
  have hq := rnd53val_mono (wNum (rnd53pair c1 t)) (wDen (rnd53pair c1 t))
    (wNum (rnd53pair c2 t)) (wDen (rnd53pair c2 t)) hwn1 hw1.1 hw2.1 hineq
  rw [pyPercent_eq c1 t hc1 ht, pyPercent_eq c2 t hc2 ht]
  exact dyadicFloor_le_of_le _ _ _ _ hq

/-- C1: for every batch run started by `start_batch_ocr` on a live
window with the OCR service running, draining the run (one completion
callback plus one debounce-timer expiry per round) appends to the
submission log exactly the positions of the jobs that were not done at
start time, in strict FIFO enqueue order (the rebuilt queue is strictly
increasing in enqueue position and drained head first); moreover after
any `k` delivered completion callbacks at most `1 + k` submissions have
been issued, so the `(n+1)`-st submission is never issued before the
`n`-th completion callback has fired. -/
theorem c1_batch_submissions (s : State) (rs : List (String × String))
    (hw : s.window_exists = true) (hr : s.ocr_running = true)
    (hne : s.file_list ≠ []) (hap : s.after_pending = false)
    (hlen : rs.length = (nonDoneIdx s.file_list).length) :
    (start_batch_ocr s).2 = StartResult.started ∧
    (drain rs (start_batch_ocr s).1).submissions =
      s.submissions ++ nonDoneIdx s.file_list ∧
    (nonDoneIdx s.file_list).Pairwise (· < ·) ∧
    (∀ rs2 : List (String × String),
      (drain rs2 (start_batch_ocr s).1).submissions.length ≤
        s.submissions.length + 1 + rs2.length) := by
  refine ⟨start_started s hne hr, ?_, nonDoneIdx_pairwise _, ?_⟩
  · rcases hq : nonDoneIdx s.file_list with _ | ⟨hd, tl⟩
    · have hrs : rs = [] := by
        rw [hq] at hlen
        exact List.length_eq_zero.mp hlen
      subst hrs
      show (start_batch_ocr s).1.submissions = s.submissions ++ []
      rw [(start_fields_nil s hne hr hq).1, List.append_nil]
    · have hsf := start_fields_cons s hd tl hne hr hq
      have hlen2 : rs.length = tl.length + 1 := by
        rw [hq] at hlen; simpa using hlen
      have hhd : hd < s.file_list.length := nonDoneIdx_lt (by rw [hq]; simp)
      have hdr := drain_run tl (start_batch_ocr s).1 rs hd hsf.2.1 hlen2
        (by rw [hsf.2.2.2.2.2.2.1]; exact hw)
        hsf.2.2.2.2.1
        hsf.2.2.2.1
        (by rw [hsf.2.2.2.2.2.2.2.1]; exact hhd)
        (by rw [hsf.2.2.2.2.2.1]; exact hap)
        (by intro a ha
            rw [hsf.2.2.2.2.2.2.2.1]
            refine nonDoneIdx_lt ?_
            rw [hq]
            simp [ha])
      rw [hdr.1, hsf.1]
      simp
  · intro rs2
    have h1 := drain_sub_le rs2 (start_batch_ocr s).1
    have h2 : (start_batch_ocr s).1.submissions.length ≤
        s.submissions.length + 1 := by
      rcases hq : nonDoneIdx s.file_list with _ | ⟨hd, tl⟩
      · rw [(start_fields_nil s hne hr hq).1]
        omega
      · rw [(start_fields_cons s hd tl hne hr hq).1]
        simp
    omega

/-- C1 witness: a concrete two-file batch submits exactly its two
pending files, in order. -/
theorem c1_batch_submissions_w :
    (drain [("x", "t1"), ("y", "t2")] (start_batch_ocr sTwoPending).1).submissions =
      sTwoPending.submissions ++ nonDoneIdx sTwoPending.file_list :=
  (c1_batch_submissions sTwoPending [("x", "t1"), ("y", "t2")]
    (by decide) (by decide) (by decide) (by decide) (by decide)).2.1

/-- C2: in every reachable window state at most one job descriptor has
processing status, and while the window is live every processing
descriptor is exactly the one recorded in the single current-task
slot. -/
theorem c2_single_processing (s : State) (hreach : Reachable s) :
    countProcessing s.file_list ≤ 1 ∧
    (s.window_exists = true → ∀ i (hi : i < s.file_list.length),
      (s.file_list[i]).status = Status.processing → s.current_task = some i) := by
  have hinv := inv_reachable s hreach
  exact ⟨countProcessing_le_one hinv.one, hinv.procCur⟩

/-- C2 witness: the invariant evaluated on a concrete mid-run state. -/
theorem c2_single_processing_w :
    countProcessing sMidRun.file_list ≤ 1 := by
  have h0 : Reachable (initState true) := Reachable.init true
  have h1 := Reachable.next _ (Event.addFile "a.png") h0
  have h2 := Reachable.next _ (Event.addFile "b.png") h1
  have h3 := Reachable.next _ Event.startBatch h2
  have hs : sMidRun = step (step (step (initState true)
      (Event.addFile "a.png")) (Event.addFile "b.png")) Event.startBatch := rfl
  exact (c2_single_processing sMidRun (by rw [hs]; exact h3)).1

/-- C3: `start_batch_ocr` fails and performs zero submissions on an
empty file list (not-started warning) and, for a non-empty list, when
the OCR service is not running (service-unavailable error); in both
cases the whole state, so in particular every job status and the
submission log, is unchanged. -/
theorem c3_start_failures (s : State) :
    (s.file_list = [] →
      start_batch_ocr s = (s, StartResult.notStarted) ∧
      (start_batch_ocr s).1.submissions = s.submissions ∧
      (start_batch_ocr s).1.file_list = s.file_list) ∧
    (s.file_list ≠ [] → s.ocr_running = false →
      start_batch_ocr s = (s, StartResult.serviceUnavailable) ∧
      (start_batch_ocr s).1.submissions = s.submissions ∧
      (start_batch_ocr s).1.file_list = s.file_list) := by
  have h := start_refusals s
  constructor
  · intro he
    have h2 := h.1 he
    rw [h2]
    exact ⟨rfl, rfl, rfl⟩
  · intro hne hr
    have h2 := h.2 hne hr
    rw [h2]
    exact ⟨rfl, rfl, rfl⟩

/-- C3 witness: concrete refusals for the empty window and for a
stopped service. -/
theorem c3_start_failures_w :
    start_batch_ocr (initState true) = (initState true, StartResult.notStarted) ∧
    start_batch_ocr sNotRunning = (sNotRunning, StartResult.serviceUnavailable) :=
  ⟨((c3_start_failures (initState true)).1 rfl).1,
   ((c3_start_failures sNotRunning).2 (by decide) rfl).1⟩

/-- C4: re-running `start_batch_ocr` never re-submits a job that is
already done (its position enters neither the rebuilt queue nor the new
submissions), and on a non-empty list whose jobs are all done the start
performs zero submissions, leaves every descriptor untouched, clears
the batch flag and immediately reports batch completion. -/
theorem c4_idempotent_restart (s : State)
    (hr : s.ocr_running = true) (hne : s.file_list ≠ []) :
    (∀ i (hi : i < s.file_list.length), (s.file_list[i]).status = Status.done →
      i ∉ (start_batch_ocr s).1.task_queue ∧
      i ∉ (start_batch_ocr s).1.submissions.drop s.submissions.length) ∧
    ((∀ f ∈ s.file_list, f.status = Status.done) →
      (start_batch_ocr s).2 = StartResult.started ∧
      (start_batch_ocr s).1.submissions = s.submissions ∧
      (start_batch_ocr s).1.complete_events = s.complete_events + 1 ∧
      (start_batch_ocr s).1.is_batch_ocr = false ∧
      (start_batch_ocr s).1.file_list = s.file_list) := by
  constructor
  · intro i hi hdone
    have hnm := not_mem_nonDoneIdx_of_done s.file_list i hi hdone
    rcases hq : nonDoneIdx s.file_list with _ | ⟨hd, tl⟩
    · have hsf := start_fields_nil s hne hr hq
      constructor
      · rw [hsf.2.2.2.1]
        simp
      · rw [hsf.1, List.drop_length]
        simp
    · have hsf := start_fields_cons s hd tl hne hr hq
      rw [hq] at hnm
      constructor
      · rw [hsf.2.1]
        intro hmem
        exact hnm (by simp [hmem])
      · rw [hsf.1, List.drop_left]
        intro hmem
        have h2 : i = hd := by simpa using hmem
        exact hnm (by simp [h2])
  · intro hall
    have hq := nonDoneIdx_nil_of_all_done s.file_list hall
    have hsf := start_fields_nil s hne hr hq
    refine ⟨start_started s hne hr, hsf.1, hsf.2.1, hsf.2.2.1, ?_⟩
    rw [hsf.2.2.2.2.1]
    apply map_eq_self_of_mem
    intro f hf
    simp [resetPending, hall f hf]

/-- C4 witness: restarting on a one-file all-done list is a no-op that
reports completion. -/
theorem c4_idempotent_restart_w :
    (start_batch_ocr sAllDone).2 = StartResult.started ∧
    (start_batch_ocr sAllDone).1.submissions = sAllDone.submissions ∧
    (start_batch_ocr sAllDone).1.complete_events = sAllDone.complete_events + 1 := by
  have h := (c4_idempotent_restart sAllDone rfl (by decide)).2 (by decide)
  exact ⟨h.1, h.2.1, h.2.2.1⟩

/-- C5: while batch routing is active, a completion delivered with the
batch window destroyed still appends exactly one history record (tagged
as window-closed) while leaving the file list, the displays and the
submission log untouched and resetting the batch routing; and with a
live window the callback is handed verbatim to the handler for the
current batch file, so the job processed is exactly the current job. -/
theorem c5_callback_window_closed (s : State) (j : Nat) (img txt : String)
    (hb : s.is_batch_ocr = true) (hcbf : s.current_batch_file = some j) :
    (s.window_exists = false →
      (ocr_result_callback s img txt).history =
        s.history ++ [⟨img, txt, HistTag.batch_window_closed⟩] ∧
      (ocr_result_callback s img txt).file_list = s.file_list ∧
      (ocr_result_callback s img txt).submissions = s.submissions ∧
      (ocr_result_callback s img txt).displayed_percent = s.displayed_percent ∧
      (ocr_result_callback s img txt).bar_value = s.bar_value ∧
      (ocr_result_callback s img txt).task_queue = s.task_queue ∧
      (ocr_result_callback s img txt).is_batch_ocr = false ∧
      (ocr_result_callback s img txt).current_batch_file = none) ∧
    (s.window_exists = true →
      ocr_result_callback s img txt = on_file_processed s j txt img) := by
  constructor
  · intro hw
    rw [cb_closed s img txt hb (by simp [hcbf]) hw]
    simp [reset_app_state]
  · intro hw
    exact cb_routes_to_ofp s img txt j hb hcbf hw

/-- C5 witness: both branches evaluated on concrete states. -/
theorem c5_callback_window_closed_w :
    (ocr_result_callback sClosedMid "x" "t").history =
      sClosedMid.history ++ [⟨"x", "t", HistTag.batch_window_closed⟩] ∧
    (ocr_result_callback sClosedMid "x" "t").submissions =
      sClosedMid.submissions ∧
    ocr_result_callback sOpenMid "x" "t" = on_file_processed sOpenMid 0 "t" "x" := by
  have h1 := (c5_callback_window_closed sClosedMid 0 "x" "t" rfl rfl).1 rfl
  have h2 := (c5_callback_window_closed sOpenMid 0 "x" "t" rfl rfl).2 rfl
  exact ⟨h1.1, h1.2.2.1, h2⟩

/-- C6 counterexample: the claimed monotonicity fails on the code. In a
single batch run over two files, the first completion displays 50
percent; five files are then added by drag and drop (which the source
does not disable during a run), and the second completion of the same
still-running batch displays 28 percent, strictly less than the
previous completion observation. -/
theorem c6_progress_cex :
    c6Mid.displayed_percent = 50 ∧
    c6Fin.displayed_percent = 28 ∧
    c6Mid.complete_events = 0 ∧
    c6Fin.complete_events = 0 ∧
    c6Fin.is_batch_ocr = true ∧
    c6Fin.displayed_percent < c6Mid.displayed_percent :=
  ⟨by decide, by decide, by decide, by decide, by decide, by decide⟩

/-- C6 (amended): after every completion the displayed progress equals
the source expression `int(completed / total * 100)` evaluated in
binary64 float arithmetic (`pyPercent`, within one of the exact ratio),
recomputed from the updated job statuses and never incremented
independently; and it is monotonically non-decreasing from one
completion to the next provided no file was enqueued in between —
formally, provided the previously displayed percentage still equals the
recomputed value on the current list, which mid-run drag-and-drop
additions invalidate. -/
theorem c6_progress_amended (s : State) (i : Nat) (txt img : String)
    (hw : s.window_exists = true) (hi : i < s.file_list.length)
    (hprev : s.displayed_percent =
      pyPercent (countDone s.file_list) s.file_list.length) :
    (on_file_processed s i txt img).displayed_percent =
      pyPercent (countDone ((on_file_processed s i txt img).file_list))
        ((on_file_processed s i txt img).file_list).length ∧
    (on_file_processed s i txt img).displayed_completed =
      countDone ((on_file_processed s i txt img).file_list) ∧
    (on_file_processed s i txt img).displayed_total =
      ((on_file_processed s i txt img).file_list).length ∧
    s.displayed_percent ≤ (on_file_processed s i txt img).displayed_percent := by
  have hd := ofp_display s i txt img hw hi
  have hlen : ((on_file_processed s i txt img).file_list).length =
      s.file_list.length := by
    rw [hd.1]
    simp
  refine ⟨?_, hd.2.1, ?_, ?_⟩
  · rw [hd.2.2.2.1, hlen]
  · rw [hd.2.2.1, hlen]
  · rw [hd.2.2.2.1, hprev, hd.1]
    exact pyPercent_mono s.file_list.length
      (countDone_le_set_done s.file_list _ rfl i)

/-- C6 (amended) witness: a concrete completion on an unchanged list
does not decrease the displayed percentage. -/
theorem c6_progress_amended_w :
    sMidRun.displayed_percent ≤
      (on_file_processed sMidRun 0 "t" "x").displayed_percent :=
  (c6_progress_amended sMidRun 0 "t" "x" (by decide) (by decide)
    (by decide)).2.2.2

/-- C7: the file list never holds two descriptors with the same source
path: enqueueing a present path is a rejected no-op returning false,
enqueueing a new path appends one pending descriptor and returns true,
and any sequence of enqueues from a duplicate-free state keeps the
paths duplicate free. -/
theorem c7_no_duplicate_paths (s : State) (p : String)
    (hnd : (s.file_list.map FileInfo.path).Nodup) :
    (p ∈ s.file_list.map FileInfo.path → add_single_file s p = (s, false)) ∧
    (p ∉ s.file_list.map FileInfo.path →
      (add_single_file s p).2 = true ∧
      (add_single_file s p).1.file_list =
        s.file_list ++ [⟨p, basename p, Status.pending, "0%", none, none⟩] ∧
      ((add_single_file s p).1.file_list.map FileInfo.path).Nodup) ∧
    (∀ ps : List String,
      ((ps.foldl (fun u q => (add_single_file u q).1) s).file_list.map
        FileInfo.path).Nodup) := by
  refine ⟨?_, ?_, ?_⟩
  · intro hdup
    simp [add_single_file, hdup]
  · intro hdup
    refine ⟨by simp [add_single_file, hdup], ?_, add_preserves_nodup s p hnd⟩
    simp [add_single_file, hdup, update_progress_display]
  · have hgen : ∀ (ps : List String) (u : State),
        (u.file_list.map FileInfo.path).Nodup →
        ((ps.foldl (fun u q => (add_single_file u q).1) u).file_list.map
          FileInfo.path).Nodup := by
      intro ps
      induction ps with
      | nil => intro u hu; exact hu
      | cons q ps2 ih =>
        intro u hu
        exact ih _ (add_preserves_nodup u q hu)
    exact fun ps => hgen ps s hnd

/-- C7 witness: a duplicate enqueue is rejected, a fresh one accepted. -/
theorem c7_no_duplicate_paths_w :
    add_single_file sTwoPending "a.png" = (sTwoPending, false) ∧
    (add_single_file sTwoPending "c.png").2 = true := by
  have h1 := c7_no_duplicate_paths sTwoPending "a.png" (by decide)
  have h2 := c7_no_duplicate_paths sTwoPending "c.png" (by decide)
  exact ⟨h1.1 (by decide), (h2.2.1 (by decide)).1⟩

/-- C8: with a current task or a non-empty queue, closing without
confirmation discards nothing; a confirmed close cancels the pending
debounce timer, clears the current task and the queue, resets the
process-wide batch flags and destroys the window, after which any
recognition result is handled by the ordinary non-batch path (one
history record, no batch-window state change). -/
theorem c8_close_window_reset (s : State)
    (hbusy : s.current_task ≠ none ∨ s.task_queue ≠ []) :
    close_window s false = s ∧
    (close_window s true).after_pending = false ∧
    (close_window s true).current_task = none ∧
    (close_window s true).task_queue = [] ∧
    (close_window s true).is_batch_ocr = false ∧
    (close_window s true).current_batch_file = none ∧
    (close_window s true).window_exists = false ∧
    (∀ img txt,
      (ocr_result_callback (close_window s true) img txt).history.length =
        (close_window s true).history.length + 1 ∧
      (ocr_result_callback (close_window s true) img txt).submissions =
        (close_window s true).submissions ∧
      (ocr_result_callback (close_window s true) img txt).file_list =
        (close_window s true).file_list ∧
      (ocr_result_callback (close_window s true) img txt).is_batch_ocr = false) := by
  have hcf := close_confirmed_fields s
  refine ⟨close_unconfirmed s hbusy, hcf.1, hcf.2.1, hcf.2.2.1, hcf.2.2.2.1,
    hcf.2.2.2.2.1, hcf.2.2.2.2.2.1, ?_⟩
  intro img txt
  have hnb : ¬ ((close_window s true).is_batch_ocr = true ∧
      (close_window s true).current_batch_file.isSome) := by
    rw [hcf.2.2.2.1]
    simp
  have h2 := cb_nonbatch _ img txt hnb
  refine ⟨h2.1, h2.2.2.2.2.1, h2.2.1, ?_⟩
  rw [h2.2.2.2.2.2.1, hcf.2.2.2.1]

/-- C8 witness: evaluated on a concrete mid-run state. -/
theorem c8_close_window_reset_w :
    close_window sMidRun false = sMidRun ∧
    (close_window sMidRun true).task_queue = [] ∧
    (close_window sMidRun true).is_batch_ocr = false := by
  have h := c8_close_window_reset sMidRun (by decide)
  exact ⟨h.1, h.2.2.2.1, h.2.2.2.2.1⟩

/-- C9: after a confirmed abort, a late completion callback appends
exactly one history record, advances no queue (the cleared queue and
current-task slot stay empty) and issues no submission; and no event
sequence whatsoever can ever make the closed window issue another
submission, so a queued job never gets submitted after the abort. -/
theorem c9_late_callback_after_abort (s : State) (img txt : String)
    (evs : List Event) :
    (ocr_result_callback (close_window s true) img txt).history.length =
      (close_window s true).history.length + 1 ∧
    (ocr_result_callback (close_window s true) img txt).submissions =
      s.submissions ∧
    (ocr_result_callback (close_window s true) img txt).task_queue = [] ∧
    (ocr_result_callback (close_window s true) img txt).current_task = none ∧
    (runEvents (ocr_result_callback (close_window s true) img txt)
      evs).submissions = s.submissions := by
  have hcf := close_confirmed_fields s
  have hnb : ¬ ((close_window s true).is_batch_ocr = true ∧
      (close_window s true).current_batch_file.isSome) := by
    rw [hcf.2.2.2.1]
    simp
  have h2 := cb_nonbatch (close_window s true) img txt hnb
  have hsub : (ocr_result_callback (close_window s true) img txt).submissions =
      s.submissions := by
    rw [h2.2.2.2.2.1, hcf.2.2.2.2.2.2.1]
  have hw2 : (ocr_result_callback (close_window s true) img txt).window_exists =
      false := by
    rw [h2.2.2.2.2.2.2.2, hcf.2.2.2.2.2.1]
  have hap2 : (ocr_result_callback (close_window s true) img txt).after_pending =
      false := by
    rw [h2.2.2.2.2.2.2.1, hcf.1]
  have hrun := runEvents_closed evs _ hw2 hap2
  refine ⟨h2.1, hsub, ?_, ?_, ?_⟩
  · rw [h2.2.2.1, hcf.2.2.1]
  · rw [h2.2.2.2.1, hcf.2.1]
  · rw [hrun.1, hsub]

/-- C10: every division behind the progress displays is safe: the
update-display path and the batch-start path publish the explicitly
guarded percentage (zero when the total is zero), while the unguarded
float division of the completion handler only executes under its
membership precondition, where the divisor is the positive file-list
length; when the membership lookup fails the except branch performs no
display update and no division. -/
theorem c10_division_safety (s : State) (i : Nat) (txt img : String) :
    ((update_progress_display s).displayed_percent =
      percentGuarded (countDone s.file_list) s.file_list.length ∧
     (s.file_list = [] → (update_progress_display s).displayed_percent = 0)) ∧
    (s.file_list ≠ [] → s.ocr_running = true →
      (start_batch_ocr s).1.displayed_percent =
        percentGuarded (s.file_list.length - (nonDoneIdx s.file_list).length)
          s.file_list.length) ∧
    (s.window_exists = true → i < s.file_list.length →
      0 < (on_file_processed s i txt img).displayed_total ∧
      (on_file_processed s i txt img).displayed_percent =
        pyPercent (on_file_processed s i txt img).displayed_completed
          (on_file_processed s i txt img).displayed_total) ∧
    (s.window_exists = true → ¬ i < s.file_list.length →
      (on_file_processed s i txt img).displayed_percent = s.displayed_percent ∧
      (on_file_processed s i txt img).displayed_total = s.displayed_total) := by
  refine ⟨⟨?_, ?_⟩, ?_, ?_, ?_⟩
  · simp [update_progress_display]
  · intro he
    simp [update_progress_display, he, percentGuarded, countDone]
  · exact fun hne hr => start_displayed s hne hr
  · intro hw hi
    have hd := ofp_display s i txt img hw hi
    constructor
    · rw [hd.2.2.1]
      omega
    · rw [hd.2.2.2.1, hd.2.1, hd.2.2.1]
  · intro hw hi
    rw [ofp_out_of_range s i txt img hw hi]
    exact ⟨rfl, rfl⟩

/-- C10 witness: the guards and the in-range division on concrete
states. -/
theorem c10_division_safety_w :
    (update_progress_display (initState true)).displayed_percent = 0 ∧
    0 < (on_file_processed sMidRun 0 "t" "x").displayed_total := by
  have h1 := (c10_division_safety (initState true) 0 "t" "x").1.2 rfl
  have h2 := ((c10_division_safety sMidRun 0 "t" "x").2.2.1
    (by decide) (by decide)).1
  exact ⟨h1, h2⟩

end OcrApp
